import Mathlib

/-!
Verification of `fastchat/llm_judge/gen_model_answer.py`.

The file shallowly embeds the script's own logic: the answer-file
reorganisation (`reorg_answer_file`), the custom logits processor
(`StopAfterEosTextGenerated.__call__`), the question chunking of `run_eval`,
the stop-string post-processing, and the per-question/choice/turn generation
loop of `get_model_answers`.  External libraries (torch, transformers,
fastchat.model, shortuuid) are abstracted as an explicit environment of
oracles; everything written in the script itself is translated directly.
-/

namespace GenModelAnswer

/-! ### `reorg_answer_file`

The Python function reads the answer file line by line, stores each line in a
dict keyed by its `question_id` (a later line with the same id overwrites the
earlier one), and rewrites the file following the sorted key list. -/

/-- One line of the answer file: the parsed `question_id` together with the
raw line text that the dict stores. -/
structure AnsLine where
  question_id : Nat
  raw : String
deriving DecidableEq, Repr

/-- Python dict assignment `answers[qid] = l` on an insertion-ordered
association list: overwrite in place if the key is present, else append. -/
def dictInsert (m : List (Nat × AnsLine)) (k : Nat) (v : AnsLine) :
    List (Nat × AnsLine) :=
  match m with
  | [] => [(k, v)]
  | (k0, v0) :: rest =>
      if k0 = k then (k0, v) :: rest else (k0, v0) :: dictInsert rest k v

/-- Python dict read `answers[qid]`. -/
def dictGet (m : List (Nat × AnsLine)) (k : Nat) : Option AnsLine :=
  match m with
  | [] => none
  | (k0, v) :: rest => if k0 = k then some v else dictGet rest k

/-- The dict built by the read loop: `for l in fin: answers[json.loads(l)["question_id"]] = l`. -/
def answersDict (lines : List AnsLine) : List (Nat × AnsLine) :=
  lines.foldl (fun m l => dictInsert m l.question_id l) []

/-- `reorg_answer_file`: sort the dict keys and write the stored line of each
key in that order. -/
def reorg_answer_file (lines : List AnsLine) : List AnsLine :=
  let answers := answersDict lines
  let qids := (answers.map Prod.fst).insertionSort (· ≤ ·)
  qids.filterMap (fun q => dictGet answers q)

theorem dictGet_insert_self (m : List (Nat × AnsLine)) (k : Nat) (v : AnsLine) :
    dictGet (dictInsert m k v) k = some v := by
  induction m with
  | nil => simp [dictInsert, dictGet]
  | cons p rest ih =>
      obtain ⟨k0, v0⟩ := p
      by_cases h : k0 = k
      · simp [dictInsert, dictGet, h]
      · simp [dictInsert, dictGet, h, ih]

theorem keys_dictInsert (m : List (Nat × AnsLine)) (k : Nat) (v : AnsLine) :
    (dictInsert m k v).map Prod.fst =
      if k ∈ m.map Prod.fst then m.map Prod.fst else m.map Prod.fst ++ [k] := by
  induction m with
  | nil => simp [dictInsert]
  | cons p rest ih =>
      obtain ⟨k0, v0⟩ := p
      by_cases h : k0 = k
      · simp [dictInsert, h]
      · have hne : ¬ k = k0 := fun hh => h hh.symm
        by_cases hmem : k ∈ rest.map Prod.fst
        · simp [dictInsert, h, ih, hmem, hne]
        · simp [dictInsert, h, ih, hmem, hne]

theorem nodup_keys_dictInsert (m : List (Nat × AnsLine)) (k : Nat) (v : AnsLine)
    (h : (m.map Prod.fst).Nodup) : ((dictInsert m k v).map Prod.fst).Nodup := by
  rw [keys_dictInsert]
  by_cases hmem : k ∈ m.map Prod.fst
  · simpa [hmem] using h
  · simp only [hmem, if_false]
    refine List.Nodup.append h (List.nodup_singleton k) ?_
    intro a ha hb
    simp only [List.mem_singleton] at hb
    exact hmem (hb ▸ ha)

theorem mem_keys_dictInsert (m : List (Nat × AnsLine)) (k q : Nat) (v : AnsLine) :
    q ∈ (dictInsert m k v).map Prod.fst ↔ q ∈ m.map Prod.fst ∨ q = k := by
  rw [keys_dictInsert]
  by_cases hmem : k ∈ m.map Prod.fst
  · simp only [hmem, if_true]
    constructor
    · exact fun h => Or.inl h
    · rintro (h | rfl)
      · exact h
      · exact hmem
  · simp [hmem]

theorem dictGet_mem (m : List (Nat × AnsLine)) (k : Nat) (v : AnsLine)
    (h : dictGet m k = some v) : (k, v) ∈ m := by
  induction m with
  | nil => simp [dictGet] at h
  | cons p rest ih =>
      obtain ⟨k0, v0⟩ := p
      by_cases hk : k0 = k
      · subst hk
        simp [dictGet] at h
        subst h
        exact List.mem_cons_self _ _
      · simp [dictGet, hk] at h
        exact List.mem_cons_of_mem _ (ih h)

theorem dictGet_isSome_of_mem (m : List (Nat × AnsLine)) (q : Nat)
    (h : q ∈ m.map Prod.fst) : ∃ v, dictGet m q = some v := by
  induction m with
  | nil => simp at h
  | cons p rest ih =>
      obtain ⟨k0, v0⟩ := p
      by_cases hk : k0 = q
      · exact ⟨v0, by simp [dictGet, hk]⟩
      · simp only [List.map_cons, List.mem_cons] at h
        rcases h with h | h
        · exact absurd h.symm hk
        · simpa [dictGet, hk] using ih h

/-- Every stored value carries the key it is stored under. -/
def KeyedOk (m : List (Nat × AnsLine)) : Prop :=
  ∀ p ∈ m, (p : Nat × AnsLine).2.question_id = p.1

theorem keyedOk_dictInsert (m : List (Nat × AnsLine)) (v : AnsLine)
    (h : KeyedOk m) : KeyedOk (dictInsert m v.question_id v) := by
  induction m with
  | nil =>
      intro p hp
      simp [dictInsert] at hp
      simp [hp]
  | cons p0 rest ih =>
      obtain ⟨k0, v0⟩ := p0
      by_cases hk : k0 = v.question_id
      · intro p hp
        simp [dictInsert, hk] at hp
        rcases hp with hp | hp
        · simp [hp, hk]
        · exact h p (List.mem_cons_of_mem _ hp)
      · intro p hp
        simp only [dictInsert, hk, if_false, List.mem_cons] at hp
        rcases hp with hp | hp
        · exact h p (hp ▸ List.mem_cons_self _ _)
        · exact ih (fun q hq => h q (List.mem_cons_of_mem _ hq)) p hp

theorem foldl_dictInsert_invariant (lines : List AnsLine) :
    ∀ m, KeyedOk m → (m.map Prod.fst).Nodup →
      KeyedOk (lines.foldl (fun m l => dictInsert m l.question_id l) m) ∧
      ((lines.foldl (fun m l => dictInsert m l.question_id l) m).map Prod.fst).Nodup ∧
      ∀ q, q ∈ (lines.foldl (fun m l => dictInsert m l.question_id l) m).map Prod.fst ↔
        q ∈ m.map Prod.fst ∨ q ∈ lines.map AnsLine.question_id := by
  induction lines with
  | nil => intro m h1 h2; simpa using ⟨h1, h2⟩
  | cons l rest ih =>
      intro m h1 h2
      have h1' := keyedOk_dictInsert m l h1
      have h2' := nodup_keys_dictInsert m l.question_id l h2
      obtain ⟨g1, g2, g3⟩ := ih (dictInsert m l.question_id l) h1' h2'
      rw [List.foldl_cons]
      refine ⟨g1, g2, fun q => ?_⟩
      rw [g3 q, mem_keys_dictInsert]
      simp only [List.map_cons, List.mem_cons]
      tauto

theorem answersDict_invariant (lines : List AnsLine) :
    KeyedOk (answersDict lines) ∧ ((answersDict lines).map Prod.fst).Nodup ∧
      ∀ q, q ∈ (answersDict lines).map Prod.fst ↔ q ∈ lines.map AnsLine.question_id := by
  have h := foldl_dictInsert_invariant lines [] (by intro p hp; simp at hp) (by simp)
  rw [answersDict]
  refine ⟨h.1, h.2.1, fun q => ?_⟩
  rw [h.2.2 q]
  simp

theorem filterMap_dictGet (m : List (Nat × AnsLine)) (qids : List Nat)
    (hmem : ∀ q ∈ qids, q ∈ m.map Prod.fst) (hkey : KeyedOk m) :
    (qids.filterMap (fun q => dictGet m q)).map AnsLine.question_id = qids := by
  induction qids with
  | nil => simp
  | cons q rest ih =>
      obtain ⟨v, hv⟩ := dictGet_isSome_of_mem m q (hmem q (List.mem_cons_self _ _))
      have hvq : v.question_id = q := hkey (q, v) (dictGet_mem m q v hv)
      simp only [List.filterMap_cons, hv, List.map_cons, hvq]
      rw [ih (fun p hp => hmem p (List.mem_cons_of_mem _ hp))]

/-- **C2.** After `reorg_answer_file`, the file holds exactly one record per
distinct question id of the input (each id of the input appears, no id
appears twice), and the records are in strictly ascending question-id
order. -/
theorem reorg_answer_file_sorted_dedup (lines : List AnsLine) :
    ((reorg_answer_file lines).map AnsLine.question_id).Sorted (· < ·) ∧
      (∀ q, q ∈ (reorg_answer_file lines).map AnsLine.question_id ↔
        q ∈ lines.map AnsLine.question_id) := by
  obtain ⟨hkey, hnodup, hmem⟩ := answersDict_invariant lines
  set m := answersDict lines with hm
  set qids := (m.map Prod.fst).insertionSort (· ≤ ·) with hq
  have hperm : List.Perm qids (m.map Prod.fst) := List.perm_insertionSort _ _
  have hsortedle : qids.Sorted (· ≤ ·) := List.sorted_insertionSort _ _
  have hqnodup : qids.Nodup := hperm.nodup_iff.mpr hnodup
  have hall : ∀ q ∈ qids, q ∈ m.map Prod.fst := fun q hqq => hperm.subset hqq
  have hout : (reorg_answer_file lines).map AnsLine.question_id = qids :=
    filterMap_dictGet m qids hall hkey
  constructor
  · rw [hout]
    exact hsortedle.lt_of_le hqnodup
  · intro q
    rw [hout, ← hmem q]
    exact ⟨fun h => hperm.subset h, fun h => (hperm.mem_iff).mpr h⟩

/-! ### `StopAfterEosTextGenerated.__call__`

The logits processor: once the sequence is longer than the stored context
size `base_len`, every batch row whose last three token ids equal
`[15501, 281, 926]` has its score row overwritten by a vector that is
`-inf` everywhere except `0` at `eos_token_id`. -/

/-- A tensor cell: a finite value or `-float("inf")`. -/
inductive Score where
  | negInf : Score
  | val : ℚ → Score
deriving DecidableEq, Repr

/-- `forced_eos = torch.full((vocab,), -inf); forced_eos[eos_token_id] = 0`. -/
def forced_eos (vocab eos_token_id : Nat) : List Score :=
  (List.replicate vocab Score.negInf).set eos_token_id (Score.val 0)

/-- `stop_token_ids = torch.Tensor([15501, 281, 926])`. -/
def stopTokenIds : List Nat := [15501, 281, 926]

/-- `row[-n:]`: the last `n` entries of a row. -/
def lastTokens (n : Nat) (row : List Nat) : List Nat := row.drop (row.length - n)

/-- `StopAfterEosTextGenerated.__call__`: `input_ids` is the batch of token
rows (all of one length, `input_ids.size(1)`), `scores` the batch of score
rows.  When the sequence length exceeds `base_len`, rows whose last three
tokens are `stopTokenIds` are replaced by `forced_eos`. -/
def stopAfterEosCall (base_len eos_token_id : Nat) (input_ids : List (List Nat))
    (scores : List (List Score)) : List (List Score) :=
  if (input_ids.headD []).length > base_len then
    List.zipWith
      (fun row srow =>
        if lastTokens 3 row = stopTokenIds then forced_eos srow.length eos_token_id
        else srow)
      input_ids scores
  else scores

theorem forced_eos_getElem (vocab eos_token_id k : Nat) (heos : eos_token_id < vocab)
    (hk : k < vocab) :
    (forced_eos vocab eos_token_id)[k]? =
      some (if k = eos_token_id then Score.val 0 else Score.negInf) := by
  by_cases h : k = eos_token_id
  · subst h
    simp [forced_eos, List.getElem?_set_self, heos]
  · rw [forced_eos, List.getElem?_set_ne (fun hh => h hh.symm)]
    simp [List.getElem?_replicate, hk, h]

/-- **C3.** When the sequence length `L` exceeds `base_len`, a batch row
ending in the tokens `[15501, 281, 926]` gets its scores rewritten to `0` at
`eos_token_id` and `-inf` everywhere else, a row not ending in that suffix
keeps its scores, and when `L ≤ base_len` all scores are returned
unchanged. -/
theorem stopAfterEosCall_spec (base_len eos_token_id L : Nat)
    (input_ids : List (List Nat)) (scores : List (List Score))
    (hrows : ∀ row ∈ input_ids, row.length = L)
    (heos : ∀ srow ∈ scores, eos_token_id < srow.length) :
    (L ≤ base_len → stopAfterEosCall base_len eos_token_id input_ids scores = scores) ∧
    (L > base_len → ∀ (i : Nat) (row : List Nat) (srow : List Score),
      input_ids[i]? = some row → scores[i]? = some srow →
      (lastTokens 3 row ≠ stopTokenIds →
        (stopAfterEosCall base_len eos_token_id input_ids scores)[i]? = some srow) ∧
      (lastTokens 3 row = stopTokenIds →
        ∃ frow : List Score,
          (stopAfterEosCall base_len eos_token_id input_ids scores)[i]? = some frow ∧
          frow.length = srow.length ∧
          ∀ k, k < srow.length →
            frow[k]? = some (if k = eos_token_id then Score.val 0 else Score.negInf))) := by
  constructor
  · intro hle
    rw [stopAfterEosCall]
    rcases input_ids with _ | ⟨row0, rest⟩
    · simp
    · have h0 : row0.length = L := hrows row0 (List.mem_cons_self _ _)
      have hcond : ¬ (((row0 :: rest).headD []).length > base_len) := by
        simp only [List.headD_cons, h0]
        omega
      rw [if_neg hcond]
  · intro hgt i row srow hrow hsrow
    have hne : input_ids ≠ [] := by
      intro h
      rw [h] at hrow
      simp at hrow
    have hhead : (input_ids.headD []).length = L := by
      rcases input_ids with _ | ⟨row0, rest⟩
      · exact absurd rfl hne
      · exact hrows row0 (List.mem_cons_self _ _)
    have hcond : (input_ids.headD []).length > base_len := by omega
    have hmemrow : row ∈ input_ids := List.getElem?_mem hrow
    have hmemsrow : srow ∈ scores := List.getElem?_mem hsrow
    have hres : (stopAfterEosCall base_len eos_token_id input_ids scores)[i]? =
        some (if lastTokens 3 row = stopTokenIds
          then forced_eos srow.length eos_token_id else srow) := by
      rw [stopAfterEosCall, if_pos hcond, List.getElem?_zipWith, hrow, hsrow]
    constructor
    · intro hstop
      rw [hres, if_neg hstop]
    · intro hstop
      refine ⟨forced_eos srow.length eos_token_id, by rw [hres, if_pos hstop], ?_, ?_⟩
      · simp [forced_eos]
      · intro k hk
        exact forced_eos_getElem srow.length eos_token_id k (heos srow hmemsrow) hk

/-- Witness for `stopAfterEosCall_spec`: a two-row batch at sequence length 4
with `base_len = 3`, one row ending in the stop suffix and one not. -/
theorem stopAfterEosCall_spec_witness :
    (4 ≤ 3 → stopAfterEosCall 3 2 [[7, 15501, 281, 926], [7, 1, 2, 3]]
        [[Score.val 1, Score.val 2, Score.val 3], [Score.val 4, Score.val 5, Score.val 6]] =
      [[Score.val 1, Score.val 2, Score.val 3], [Score.val 4, Score.val 5, Score.val 6]]) ∧
    (4 > 3 → ∀ (i : Nat) (row : List Nat) (srow : List Score),
      ([[7, 15501, 281, 926], [7, 1, 2, 3]] : List (List Nat))[i]? = some row →
      ([[Score.val 1, Score.val 2, Score.val 3],
        [Score.val 4, Score.val 5, Score.val 6]] : List (List Score))[i]? = some srow →
      (lastTokens 3 row ≠ stopTokenIds →
        (stopAfterEosCall 3 2 [[7, 15501, 281, 926], [7, 1, 2, 3]]
          [[Score.val 1, Score.val 2, Score.val 3],
           [Score.val 4, Score.val 5, Score.val 6]])[i]? = some srow) ∧
      (lastTokens 3 row = stopTokenIds →
        ∃ frow : List Score,
          (stopAfterEosCall 3 2 [[7, 15501, 281, 926], [7, 1, 2, 3]]
            [[Score.val 1, Score.val 2, Score.val 3],
             [Score.val 4, Score.val 5, Score.val 6]])[i]? = some frow ∧
          frow.length = srow.length ∧
          ∀ k, k < srow.length →
            frow[k]? = some (if k = 2 then Score.val 0 else Score.negInf))) :=
  stopAfterEosCall_spec 3 2 4 [[7, 15501, 281, 926], [7, 1, 2, 3]]
    [[Score.val 1, Score.val 2, Score.val 3], [Score.val 4, Score.val 5, Score.val 6]]
    (by intro row hrow; fin_cases hrow <;> rfl)
    (by intro srow hsrow; fin_cases hsrow <;> simp)

/-! ### `run_eval`: chunking of the question list

`run_eval` asserts `num_gpus_total % num_gpus_per_model == 0`, computes
`chunk_size = len(questions) // (num_gpus_total // num_gpus_per_model)` and
slices `questions[i : i + chunk_size]` for `i in range(0, len(questions),
chunk_size)`.  Python raises `ZeroDivisionError` on `x % 0` and `x // 0`,
`AssertionError` on a failed assert, and `ValueError` when the range step is
zero; these are the error outcomes of the model. -/

/-- The values of `range(0, stop, step)` for `step > 0`: `ceil(stop/step)`
values starting at `0` spaced `step` apart. -/
def pyRange (stop step : Nat) : List Nat :=
  List.range' 0 ((stop + step - 1) / step) step

/-- The chunk list `[questions[i : i + csize] for i in range(0, len(questions), csize)]`. -/
def pyChunks {α : Type} (qs : List α) (csize : Nat) : List (List α) :=
  (pyRange qs.length csize).map (fun i => (qs.drop i).take csize)

/-- The chunk-splitting prefix of `run_eval` (up to the dispatch loop), with
Python's raised exceptions as `Except.error` outcomes. -/
def run_eval_chunks {α : Type} (questions : List α)
    (num_gpus_total num_gpus_per_model : Nat) : Except String (List (List α)) :=
  if num_gpus_per_model = 0 then Except.error "ZeroDivisionError"
  else if ¬ num_gpus_total % num_gpus_per_model = 0 then Except.error "AssertionError"
  else if num_gpus_total / num_gpus_per_model = 0 then Except.error "ZeroDivisionError"
  else if questions.length / (num_gpus_total / num_gpus_per_model) = 0 then
    Except.error "ValueError: range() arg 3 must not be zero"
  else Except.ok (pyChunks questions (questions.length / (num_gpus_total / num_gpus_per_model)))

theorem pyRange_zero (step : Nat) : pyRange 0 step = [] := by
  rw [pyRange]
  have h : (0 + step - 1) / step = 0 := by
    rcases Nat.eq_zero_or_pos step with h | h
    · simp [h]
    · exact Nat.div_eq_of_lt (by omega)
  rw [h]
  simp

theorem pyChunks_nil {α : Type} (csize : Nat) : pyChunks ([] : List α) csize = [] := by
  simp [pyChunks, pyRange_zero]

theorem pyChunks_cons {α : Type} (qs : List α) (csize : Nat) (hc : 0 < csize)
    (hqs : qs ≠ []) :
    pyChunks qs csize = qs.take csize :: pyChunks (qs.drop csize) csize := by
  have hlen : 0 < qs.length := List.length_pos.mpr hqs
  have hsteps : (qs.length + csize - 1) / csize =
      ((qs.length - csize) + csize - 1) / csize + 1 := by
    rcases Nat.lt_or_ge csize qs.length with h | h
    · have h1 : qs.length + csize - 1 = ((qs.length - csize - 1) + csize) + csize := by
        omega
      have h2 : qs.length - csize + csize - 1 = (qs.length - csize - 1) + csize := by
        omega
      rw [h1, h2, Nat.add_div_right _ hc, Nat.add_div_right _ hc]
    · have h2 : qs.length - csize = 0 := by omega
      have h1 : qs.length + csize - 1 = (qs.length - 1) + csize := by omega
      rw [h1, h2, Nat.add_div_right _ hc]
      have h3 : (qs.length - 1) / csize = 0 := Nat.div_eq_of_lt (by omega)
      have h4 : (0 + csize - 1) / csize = 0 := Nat.div_eq_of_lt (by omega)
      rw [h3, h4]
  have hshift : ∀ n : Nat,
      (List.range' csize n csize).map (fun i => (qs.drop i).take csize) =
      (List.range' 0 n csize).map (fun i => ((qs.drop csize).drop i).take csize) := by
    intro n
    have hmap := List.map_add_range' csize 0 n csize
    rw [Nat.add_zero] at hmap
    rw [← hmap, List.map_map]
    refine List.map_congr_left ?_
    intro i _
    simp only [Function.comp]
    rw [List.drop_drop]
  have hdroplen : (qs.drop csize).length = qs.length - csize := List.length_drop _ _
  rw [pyChunks, pyChunks, pyRange, pyRange, hdroplen, hsteps, List.range'_succ]
  simp only [List.map_cons, List.drop_zero, Nat.zero_add]
  rw [hshift]

theorem pyChunks_flatten {α : Type} (csize : Nat) (hc : 0 < csize) :
    ∀ qs : List α, (pyChunks qs csize).flatten = qs := by
  suffices h : ∀ n, ∀ qs : List α, qs.length = n → (pyChunks qs csize).flatten = qs by
    exact fun qs => h qs.length qs rfl
  intro n
  induction n using Nat.strong_induction_on with
  | _ n ih =>
      intro qs hn
      rcases qs with _ | ⟨a, rest⟩
      · simp [pyChunks_nil]
      · rw [pyChunks_cons _ csize hc (by simp), List.flatten_cons]
        have hlt : ((a :: rest).drop csize).length < n := by
          have hlen1 : (a :: rest).length = rest.length + 1 := List.length_cons a rest
          rw [List.length_drop]
          omega
        rw [ih _ hlt _ rfl]
        exact List.take_append_drop csize (a :: rest)

theorem pyChunks_length {α : Type} (qs : List α) (csize : Nat) :
    (pyChunks qs csize).length = (qs.length + csize - 1) / csize := by
  simp [pyChunks, pyRange]

theorem pyChunks_length_of_dvd {α : Type} (qs : List α) (g : Nat) (hg : 0 < g)
    (hc : 0 < qs.length / g) (hdvd : g ∣ qs.length) :
    (pyChunks qs (qs.length / g)).length = g := by
  obtain ⟨k, hk⟩ := hdvd
  have hcsk : qs.length / g = k := by rw [hk, Nat.mul_div_cancel_left _ hg]
  have hkpos : 0 < k := by omega
  rw [pyChunks_length, hcsk, hk]
  have key : g * k + k - 1 = (k - 1) + g * k := by
    generalize g * k = t
    omega
  rw [key, Nat.add_mul_div_right _ _ hkpos,
    Nat.div_eq_of_lt (show k - 1 < k by omega)]
  omega

/-- **C8.** `run_eval` reaches its dispatch loop (the model returns `ok`)
exactly when the GPU divisibility assertion holds and the question list has
at least one question per accelerator-group: in particular success requires
`num_gpus_total % num_gpus_per_model = 0` and
`num_gpus_total / num_gpus_per_model ≤ len(questions)` (plus the implicit
non-degeneracy `0 < num_gpus_per_model` and `0 < num_gpus_total /
num_gpus_per_model` that keep Python's divisions from raising). -/
theorem run_eval_chunks_total_iff {α : Type} (questions : List α)
    (num_gpus_total num_gpus_per_model : Nat) :
    (∃ chunks, run_eval_chunks questions num_gpus_total num_gpus_per_model =
        Except.ok chunks) ↔
      (0 < num_gpus_per_model ∧ num_gpus_total % num_gpus_per_model = 0 ∧
        0 < num_gpus_total / num_gpus_per_model ∧
        num_gpus_total / num_gpus_per_model ≤ questions.length) := by
  constructor
  · rintro ⟨chunks, hch⟩
    rw [run_eval_chunks] at hch
    by_cases h1 : num_gpus_per_model = 0
    · simp [h1] at hch
    by_cases h2 : num_gpus_total % num_gpus_per_model = 0
    · by_cases h3 : num_gpus_total / num_gpus_per_model = 0
      · simp [h1, h2, h3] at hch
      · by_cases h4 : questions.length / (num_gpus_total / num_gpus_per_model) = 0
        · simp [h1, h2, h3, h4] at hch
        · refine ⟨Nat.pos_of_ne_zero h1, h2, Nat.pos_of_ne_zero h3, ?_⟩
          have h5 : 1 ≤ questions.length / (num_gpus_total / num_gpus_per_model) :=
            Nat.one_le_iff_ne_zero.mpr h4
          have h6 := (Nat.le_div_iff_mul_le (Nat.pos_of_ne_zero h3)).mp h5
          rw [Nat.one_mul] at h6
          exact h6
    · simp [h1, h2] at hch
  · rintro ⟨h1, h2, h3, h4⟩
    have h4' : ¬ questions.length / (num_gpus_total / num_gpus_per_model) = 0 := by
      have h5 : 1 ≤ questions.length / (num_gpus_total / num_gpus_per_model) :=
        (Nat.le_div_iff_mul_le h3).mpr (by rw [Nat.one_mul]; exact h4)
      exact Nat.one_le_iff_ne_zero.mp h5
    refine ⟨pyChunks questions
      (questions.length / (num_gpus_total / num_gpus_per_model)), ?_⟩
    rw [run_eval_chunks, if_neg (Nat.pos_iff_ne_zero.mp h1), if_neg (by simp [h2]),
      if_neg (Nat.pos_iff_ne_zero.mp h3), if_neg h4']

/-- `run_eval` counterexample input: five questions, two accelerator-groups.
`chunk_size = 5 // 2 = 2` and the slicing loop yields three chunks, not
two. -/
theorem run_eval_chunks_counterexample :
    run_eval_chunks ([10, 11, 12, 13, 14] : List Nat) 2 1 =
        Except.ok [[10, 11], [12, 13], [14]] ∧
      ¬ ([[10, 11], [12, 13], [14]] : List (List Nat)).length = 2 / 1 := by
  constructor
  · rfl
  · decide

/-- **C4 (amended).** Whenever `run_eval` reaches its dispatch loop, the
contiguous chunks it builds cover every question exactly once in the original
order (their concatenation is the question list); the number of chunks equals
the accelerator-group count `num_gpus_total // num_gpus_per_model` when that
count divides the number of questions (in general the loop produces
`ceil(len(questions) / chunk_size)` chunks, which exceeds the group count
when the division leaves a remainder). -/
theorem run_eval_chunks_cover (questions : List Nat)
    (num_gpus_total num_gpus_per_model : Nat) (chunks : List (List Nat))
    (h : run_eval_chunks questions num_gpus_total num_gpus_per_model =
      Except.ok chunks) :
    chunks.flatten = questions ∧
      ((num_gpus_total / num_gpus_per_model) ∣ questions.length →
        chunks.length = num_gpus_total / num_gpus_per_model) := by
  rw [run_eval_chunks] at h
  by_cases h1 : num_gpus_per_model = 0
  · simp [h1] at h
  by_cases h2 : num_gpus_total % num_gpus_per_model = 0
  swap
  · simp [h1, h2] at h
  by_cases h3 : num_gpus_total / num_gpus_per_model = 0
  · simp [h1, h2, h3] at h
  by_cases h4 : questions.length / (num_gpus_total / num_gpus_per_model) = 0
  · simp [h1, h2, h3, h4] at h
  simp only [h1, if_false, h2, not_true, h3, h4] at h
  have hch := Except.ok.inj h
  subst hch
  constructor
  · exact pyChunks_flatten _ (Nat.pos_of_ne_zero h4) questions
  · intro hdvd
    exact pyChunks_length_of_dvd questions _ (Nat.pos_of_ne_zero h3)
      (Nat.pos_of_ne_zero h4) hdvd

/-- Witness for `run_eval_chunks_cover`: six questions over two
accelerator-groups, chunk size three. -/
theorem run_eval_chunks_cover_witness :
    ([[10, 11, 12], [13, 14, 15]] : List (List Nat)).flatten =
        [10, 11, 12, 13, 14, 15] ∧
      ((2 / 1) ∣ ([10, 11, 12, 13, 14, 15] : List Nat).length →
        ([[10, 11, 12], [13, 14, 15]] : List (List Nat)).length = 2 / 1) :=
  run_eval_chunks_cover [10, 11, 12, 13, 14, 15] 2 1 [[10, 11, 12], [13, 14, 15]] rfl

/-! ### Stop-string post-processing

After decoding, `get_model_answers` truncates the output at conversation
stop strings:

```
if conv.stop_str and isinstance(conv.stop_str, list):
    stop_str_indices = sorted([output.find(s) for s in conv.stop_str
                               if output.find(s) > 0])
    if len(stop_str_indices) > 0:
        output = output[: stop_str_indices[0]]
elif conv.stop_str and output.find(conv.stop_str) > 0:
    output = output[: output.find(conv.stop_str)]
```

Strings are modelled as `List Char`; `pyFind` is Python's `str.find`
(first-occurrence index, `-1` when absent). -/

/-- Helper for `pyFind`: first index `≥ i` at which `sub` starts in the
remaining text. -/
def pyFindAux (sub : List Char) : List Char → Nat → Option Nat
  | [], i => if List.isPrefixOf sub [] then some i else none
  | c :: t, i =>
      if List.isPrefixOf sub (c :: t) then some i else pyFindAux sub t (i + 1)

/-- Python `hay.find(sub)`: the first occurrence index, `-1` when absent
(the empty pattern is found at index `0`). -/
def pyFind (hay sub : List Char) : Int :=
  match pyFindAux sub hay 0 with
  | some i => (i : Int)
  | Option.none => -1

/-- `conv.stop_str`: absent, a single string, or a list of strings. -/
inductive StopStr where
  | none : StopStr
  | str : List Char → StopStr
  | list : List (List Char) → StopStr

/-- `sorted([output.find(s) for s in stop_str if output.find(s) > 0])`. -/
def stopStrIndices (l : List (List Char)) (output : List Char) : List Int :=
  (l.filterMap (fun s =>
    if 0 < pyFind output s then some (pyFind output s) else Option.none)).insertionSort
    (· ≤ ·)

/-- The stop-string truncation step, with Python truthiness: an absent stop
string, the empty string, and the empty list all leave the output alone. -/
def stop_str_truncate (ss : StopStr) (output : List Char) : List Char :=
  match ss with
  | StopStr.list l =>
      if l ≠ [] then
        match stopStrIndices l output with
        | [] => output
        | i :: _ => output.take i.toNat
      else output
  | StopStr.str s =>
      if s ≠ [] ∧ 0 < pyFind output s then output.take (pyFind output s).toNat
      else output
  | StopStr.none => output

theorem pyFind_of_isPrefixOf (s out : List Char) (h : List.isPrefixOf s out) :
    pyFind out s = 0 := by
  rcases out with _ | ⟨c, t⟩
  · simp [pyFind, pyFindAux, h]
  · simp [pyFind, pyFindAux, h]

theorem insertionSort_head_min (l : List Int) (m : Int) (rest : List Int)
    (h : l.insertionSort (· ≤ ·) = m :: rest) : m ∈ l ∧ ∀ x ∈ l, m ≤ x := by
  have hperm : List.Perm (l.insertionSort (· ≤ ·)) l := List.perm_insertionSort _ _
  have hsorted : (l.insertionSort (· ≤ ·)).Sorted (· ≤ ·) :=
    List.sorted_insertionSort _ _
  rw [h] at hperm hsorted
  refine ⟨hperm.subset (List.mem_cons_self _ _), fun x hx => ?_⟩
  have hx2 : x ∈ m :: rest := hperm.mem_iff.mpr hx
  rcases List.mem_cons.mp hx2 with h1 | h1
  · exact h1 ▸ le_refl m
  · exact (List.sorted_cons.mp hsorted).1 x h1

/-- **C10 (amended).** The single-string branch cuts at the first occurrence
exactly when that occurrence is at a strictly positive index, and an output
beginning with the stop string is left unchanged by it.  The list branch cuts
at the smallest strictly positive *first-occurrence* index among the stop
strings, and leaves the output unchanged when no stop string first occurs at
a positive index; a stop string whose first occurrence is at index 0 is
merely ignored, so an output that begins with one stop string can still be
truncated at another's positive first occurrence. -/
theorem stop_str_truncate_spec :
    (∀ s out : List Char, 0 < pyFind out s →
      stop_str_truncate (StopStr.str s) out = out.take (pyFind out s).toNat) ∧
    (∀ s out : List Char, List.isPrefixOf s out →
      stop_str_truncate (StopStr.str s) out = out) ∧
    (∀ (l : List (List Char)) (out : List Char),
      (∀ s ∈ l, pyFind out s ≤ 0) → stop_str_truncate (StopStr.list l) out = out) ∧
    (∀ (l : List (List Char)) (out : List Char) (m : Int),
      (m ∈ l.filterMap (fun s =>
        if 0 < pyFind out s then some (pyFind out s) else Option.none)) →
      (∀ j ∈ l.filterMap (fun s =>
        if 0 < pyFind out s then some (pyFind out s) else Option.none), m ≤ j) →
      stop_str_truncate (StopStr.list l) out = out.take m.toNat) := by
  refine ⟨?_, ?_, ?_, ?_⟩
  · intro s out hpos
    have hs : s ≠ [] := by
      intro h
      rw [h] at hpos
      have : pyFind out [] = 0 := pyFind_of_isPrefixOf [] out (by simp)
      omega
    rw [stop_str_truncate, if_pos ⟨hs, hpos⟩]
  · intro s out hpre
    have h0 : pyFind out s = 0 := pyFind_of_isPrefixOf s out hpre
    rw [stop_str_truncate]
    rw [if_neg]
    intro hcontra
    rw [h0] at hcontra
    exact lt_irrefl 0 hcontra.2
  · intro l out hle
    have hempty : l.filterMap (fun s =>
        if 0 < pyFind out s then some (pyFind out s) else Option.none) = [] := by
      rw [List.filterMap_eq_nil_iff]
      intro s hs
      rw [if_neg (by have := hle s hs; omega)]
    rw [stop_str_truncate]
    by_cases hl : l ≠ []
    · rw [if_pos hl]
      have : stopStrIndices l out = [] := by
        rw [stopStrIndices, hempty]
        rfl
      rw [this]
    · rw [if_neg hl]
  · intro l out m hmem hmin
    have hl : l ≠ [] := by
      intro h
      rw [h] at hmem
      simp at hmem
    rw [stop_str_truncate, if_pos hl]
    have hne : stopStrIndices l out ≠ [] := by
      rw [stopStrIndices]
      intro h
      have := (List.perm_insertionSort (· ≤ ·) (l.filterMap (fun s =>
        if 0 < pyFind out s then some (pyFind out s) else Option.none))).symm.subset hmem
      rw [h] at this
      simp at this
    rcases hh : stopStrIndices l out with _ | ⟨i, rest⟩
    · exact absurd hh hne
    · obtain ⟨hi_mem, hi_min⟩ := insertionSort_head_min _ i rest hh
      have h1 : i ≤ m := hi_min m hmem
      have h2 : m ≤ i := hmin i hi_mem
      have : i = m := le_antisymm h1 h2
      rw [this]

/-- Witness for `stop_str_truncate_spec`: each conjunct applied at a concrete
output and stop-string configuration. -/
theorem stop_str_truncate_spec_witness :
    (stop_str_truncate (StopStr.str ['b']) ['a', 'b'] =
      (['a', 'b'] : List Char).take (pyFind ['a', 'b'] ['b']).toNat) ∧
    (stop_str_truncate (StopStr.str ['a', 'b']) ['a', 'b', 'c'] = ['a', 'b', 'c']) ∧
    (stop_str_truncate (StopStr.list [['a', 'b']]) ['a', 'b', 'c'] = ['a', 'b', 'c']) ∧
    (stop_str_truncate (StopStr.list [['a', 'b'], ['c', 'd']]) ['a', 'b', 'X', 'c', 'd'] =
      (['a', 'b', 'X', 'c', 'd'] : List Char).take ((3 : Int)).toNat) :=
  ⟨stop_str_truncate_spec.1 ['b'] ['a', 'b'] (by decide),
   stop_str_truncate_spec.2.1 ['a', 'b'] ['a', 'b', 'c'] (by decide),
   stop_str_truncate_spec.2.2.1 [['a', 'b']] ['a', 'b', 'c'] (by decide),
   stop_str_truncate_spec.2.2.2 [['a', 'b'], ['c', 'd']] ['a', 'b', 'X', 'c', 'd'] 3
     (by decide) (by decide)⟩

/-- Counterexample to C10 as stated: with stop strings `["ab", "cd"]` the
output `"abXcd"` begins with the stop string `"ab"` at index 0 and is still
truncated (at the first occurrence of `"cd"`). -/
theorem stop_str_truncate_counterexample :
    List.isPrefixOf ['a', 'b'] ['a', 'b', 'X', 'c', 'd'] = true ∧
    stop_str_truncate (StopStr.list [['a', 'b'], ['c', 'd']]) ['a', 'b', 'X', 'c', 'd'] =
      ['a', 'b', 'X'] ∧
    (['a', 'b', 'X'] : List Char) ≠ ['a', 'b', 'X', 'c', 'd'] := by
  refine ⟨by decide, by decide, by decide⟩

/-! ### The generation loop of `get_model_answers`

The loop is embedded with the external ML stack (fastchat templates,
tokenizer, `model.generate`, `shortuuid`, `time`) as an explicit environment
of deterministic oracles.  Torch's global RNG is threaded as a `Nat` state:
`torch.manual_seed(i)` replaces it by `Env.seedState i`, and `generate`
consumes and returns it.  `shortuuid.uuid()` and `time.time()` are indexed by
a call counter.  Everything the script itself computes — prompt/conversation
bookkeeping, the `max_new_token` clipping, the `do_sample` switch, the
stop-token and stop-string truncation, special-token stripping, the xgen
rule, and the `RuntimeError` catch — is translated directly. -/

/-- A Python exception raised inside the generation try-block:
`RuntimeError` (the only class the script catches) or anything else. -/
inductive PyErr where
  | runtimeError : String → PyErr
  | other : String → PyErr
deriving DecidableEq, Repr

/-- A fastchat conversation template object, as the script uses it. -/
structure Conv where
  name : String
  role_user : String
  role_assistant : String
  messages : List (String × Option String)
  stop_token_ids : List Nat
  stop_str : StopStr

/-- `conv.append_message(role, msg)`. -/
def Conv.append_message (c : Conv) (role : String) (msg : Option String) : Conv :=
  { c with messages := c.messages ++ [(role, msg)] }

/-- `conv.update_last_message(msg)`. -/
def Conv.update_last_message (c : Conv) (msg : String) : Conv :=
  { c with messages := c.messages.dropLast ++
      [((c.messages.getLast?.map Prod.fst).getD "", some msg)] }

/-- The two `conv.append_message` calls that open a turn. -/
def turnConv (conv : Conv) (qs : String) : Conv :=
  (conv.append_message conv.role_user (some qs)).append_message
    conv.role_assistant Option.none

/-- The arguments of one `model.generate` invocation, as recorded for the
trace. -/
structure GenCall where
  prompt : String
  num_input_tokens : Nat
  max_new_tokens : Int
  do_sample : Bool
  temperature : ℚ
deriving DecidableEq, Repr

/-- The external stack: conversation templates, tokenizer, model, uuid and
clock, each a deterministic oracle. -/
structure Env where
  template : String → Conv
  temperature_config : String → Option ℚ
  promptOf : Conv → String
  tokenize : String → List Nat
  seedState : Nat → Nat
  generate : Nat → GenCall → Except PyErr (List Nat) × Nat
  decode : List Nat → Except PyErr String
  special_tokens : List String
  is_encoder_decoder : Bool
  uuid : Nat → String
  time : Nat → Nat

/-- The script's mutable locals threaded through the loops: the torch RNG,
the `max_new_token` local, the uuid/clock call counter, and the traces of
`torch.manual_seed` arguments and `model.generate` calls. -/
structure RunSt where
  rng : Nat
  mnt : Int
  ctr : Nat
  seeds : List Nat
  calls : List GenCall
deriving DecidableEq, Repr

/-- One entry of the `choices` list: `{"index": i, "turns": turns}`. -/
structure Choice where
  index : Nat
  turns : List String
deriving DecidableEq, Repr

/-- One answer-file record:
`{question_id, answer_id, model_id, choices, tstamp}`. -/
structure Answer where
  question_id : Nat
  answer_id : String
  model_id : String
  choices : List Choice
  tstamp : Nat
deriving DecidableEq, Repr

/-- A benchmark question record (the fields the loop reads). -/
structure Question where
  question_id : Nat
  category : String
  turns : List String
deriving DecidableEq, Repr

/-- The `model.generate` arguments a turn assembles: the prompt from the
appended conversation, its token count, the clipped `max_new_tokens`
(`2048 - num_input_tokens` when `num_input_tokens + MAX_NEW_TOKEN > 2048`,
else `MAX_NEW_TOKEN`), and `do_sample = not (temperature < 1e-4)`. -/
def turnGenCall (env : Env) (MAX_NEW_TOKEN : Int) (temperature : ℚ)
    (conv1 : Conv) : GenCall :=
  let prompt := env.promptOf conv1
  let num_input_tokens := (env.tokenize prompt).length
  { prompt := prompt
    num_input_tokens := num_input_tokens
    max_new_tokens :=
      if (num_input_tokens : Int) + MAX_NEW_TOKEN > 2048 then
        (2048 : Int) - num_input_tokens
      else MAX_NEW_TOKEN
    do_sample := if temperature < 1 / 10000 then false else true
    temperature := temperature }

/-- The post-generation processing inside the try-block: slice off the
prompt for decoder-only models, cut at the first conversation stop token,
decode, cut at stop strings, strip special tokens, trim, and apply the xgen
rule. -/
def postprocess (env : Env) (conv1 : Conv) (input_len : Nat) (raw : List Nat) :
    Except PyErr String := do
  let output_ids := if env.is_encoder_decoder then raw else raw.drop input_len
  let output_ids :=
    if conv1.stop_token_ids ≠ [] then
      match output_ids.findIdx? (fun id => conv1.stop_token_ids.contains id) with
      | some i => output_ids.take i
      | Option.none => output_ids
    else output_ids
  let output ← env.decode output_ids
  let output := String.mk (stop_str_truncate conv1.stop_str output.data)
  let output := env.special_tokens.foldl (fun o tok => o.replace tok "") output
  let output := output.trim
  let output :=
    if conv1.name = "xgen" ∧ "Assistant:".isPrefixOf output then
      (output.drop "Assistant:".length).trim
    else output
  pure output

/-- The `except RuntimeError` clause: a `RuntimeError` becomes the sentinel
output `"ERROR"`, any other exception keeps propagating. -/
def catchRuntime (r : Except PyErr String) : Except PyErr String :=
  match r with
  | Except.ok output => Except.ok output
  | Except.error (PyErr.runtimeError _) => Except.ok "ERROR"
  | Except.error e => Except.error e

/-- One iteration of the turn loop: append the user message and the empty
assistant slot, build the generate call, run generation and post-processing,
catching `RuntimeError` as the sentinel output `"ERROR"`; any other
exception propagates.  The turn ends with `conv.update_last_message(output)`
and `turns.append(output)`. -/
def runTurn (env : Env) (MAX_NEW_TOKEN : Int) (temperature : ℚ) (conv : Conv)
    (st : RunSt) (qs : String) : Except PyErr (Conv × RunSt × String) :=
  let conv1 := turnConv conv qs
  let call := turnGenCall env MAX_NEW_TOKEN temperature conv1
  let res := env.generate st.rng call
  let st1 : RunSt :=
    { st with rng := res.2, mnt := call.max_new_tokens, calls := st.calls ++ [call] }
  (catchRuntime (res.1.bind
      (fun raw => postprocess env conv1 call.num_input_tokens raw))).map
    (fun output => (conv1.update_last_message output, st1, output))

/-- The turn loop `for j in range(len(question["turns"]))`. -/
def runTurns (env : Env) (MAX_NEW_TOKEN : Int) (temperature : ℚ) :
    Conv → RunSt → List String → Except PyErr (Conv × RunSt × List String)
  | conv, st, [] => Except.ok (conv, st, [])
  | conv, st, qs :: rest =>
      match runTurn env MAX_NEW_TOKEN temperature conv st qs with
      | Except.error e => Except.error e
      | Except.ok (conv1, st1, out) =>
          match runTurns env MAX_NEW_TOKEN temperature conv1 st1 rest with
          | Except.error e => Except.error e
          | Except.ok (conv2, st2, outs) => Except.ok (conv2, st2, out :: outs)

/-- One iteration of the choice loop: `torch.manual_seed(i)`, a fresh
conversation template, and the turns. -/
def runChoice (env : Env) (model_id : String) (MAX_NEW_TOKEN : Int)
    (temperature : ℚ) (question_turns : List String) (i : Nat) (st : RunSt) :
    Except PyErr (RunSt × Choice) :=
  let st0 : RunSt := { st with rng := env.seedState i, seeds := st.seeds ++ [i] }
  let conv := env.template model_id
  match runTurns env MAX_NEW_TOKEN temperature conv st0 question_turns with
  | Except.error e => Except.error e
  | Except.ok (_, st1, turns) => Except.ok (st1, { index := i, turns := turns })

/-- The choice loop `for i in range(num_choices)` over a list of indices. -/
def runChoices (env : Env) (model_id : String) (MAX_NEW_TOKEN : Int)
    (temperature : ℚ) (question_turns : List String) :
    List Nat → RunSt → Except PyErr (RunSt × List Choice)
  | [], st => Except.ok (st, [])
  | i :: rest, st =>
      match runChoice env model_id MAX_NEW_TOKEN temperature question_turns i st with
      | Except.error e => Except.error e
      | Except.ok (st1, c) =>
          match runChoices env model_id MAX_NEW_TOKEN temperature question_turns
              rest st1 with
          | Except.error e => Except.error e
          | Except.ok (st2, cs) => Except.ok (st2, c :: cs)

/-- One iteration of the question loop: pick the temperature from the
category, run all choices, and append one answer record built from a fresh
uuid and timestamp. -/
def runQuestion (env : Env) (model_id : String) (MAX_NEW_TOKEN : Int)
    (num_choices : Nat) (q : Question) (st : RunSt) :
    Except PyErr (RunSt × Answer) :=
  let temperature := (env.temperature_config q.category).getD (7 / 10)
  match runChoices env model_id MAX_NEW_TOKEN temperature q.turns
      (List.range num_choices) st with
  | Except.error e => Except.error e
  | Except.ok (st1, choices) =>
      Except.ok ({ st1 with ctr := st1.ctr + 1 },
        { question_id := q.question_id
          answer_id := env.uuid st1.ctr
          model_id := model_id
          choices := choices
          tstamp := env.time st1.ctr })

/-- The question loop `for question in tqdm(questions)`. -/
def runQuestions (env : Env) (model_id : String) (MAX_NEW_TOKEN : Int)
    (num_choices : Nat) : List Question → RunSt → Except PyErr (RunSt × List Answer)
  | [], st => Except.ok (st, [])
  | q :: rest, st =>
      match runQuestion env model_id MAX_NEW_TOKEN num_choices q st with
      | Except.error e => Except.error e
      | Except.ok (st1, ans) =>
          match runQuestions env model_id MAX_NEW_TOKEN num_choices rest st1 with
          | Except.error e => Except.error e
          | Except.ok (st2, anss) => Except.ok (st2, ans :: anss)

/-- `get_model_answers` after model loading: the question loop from a fresh
state (`MAX_NEW_TOKEN` is the function argument, the mutable
`max_new_token` local starts equal to it). -/
def get_model_answers (env : Env) (model_id : String) (questions : List Question)
    (max_new_token : Int) (num_choices : Nat) : Except PyErr (RunSt × List Answer) :=
  runQuestions env model_id max_new_token num_choices questions
    { rng := 0, mnt := max_new_token, ctr := 0, seeds := [], calls := [] }

/-- An environment whose generation and decode oracles can fail only with
`RuntimeError` (never another exception class). -/
def NoOther (env : Env) : Prop :=
  (∀ rng c m, (env.generate rng c).1 ≠ Except.error (PyErr.other m)) ∧
  (∀ ids m, env.decode ids ≠ Except.error (PyErr.other m))

theorem postprocess_error (env : Env) (conv1 : Conv) (input_len : Nat)
    (raw : List Nat) (e : PyErr) (h : postprocess env conv1 input_len raw = Except.error e) :
    ∃ ids, env.decode ids = Except.error e := by
  rw [postprocess] at h
  cases hd : env.decode
      (if conv1.stop_token_ids ≠ [] then
        match (if env.is_encoder_decoder then raw else raw.drop input_len).findIdx?
            (fun id => conv1.stop_token_ids.contains id) with
        | some i => (if env.is_encoder_decoder then raw else raw.drop input_len).take i
        | Option.none => (if env.is_encoder_decoder then raw else raw.drop input_len)
      else (if env.is_encoder_decoder then raw else raw.drop input_len)) with
  | ok out =>
      rw [hd] at h
      simp [pure, Except.pure, bind, Except.bind] at h
  | error e2 =>
      rw [hd] at h
      simp only [bind, Except.bind] at h
      have he : e2 = e := Except.error.inj h
      exact ⟨_, he ▸ hd⟩

/-- Case analysis on one turn: the turn either succeeds with some output and
the canonical successor state (the call appended to the trace, the RNG
advanced, `ctr` and `seeds` untouched), or aborts with a non-`RuntimeError`
exception that came from the generation or decode oracle. -/
theorem runTurn_shape (env : Env) (M : Int) (t : ℚ) (conv : Conv) (st : RunSt)
    (qs : String) :
    (∃ output, runTurn env M t conv st qs = Except.ok
      ((turnConv conv qs).update_last_message output,
       { st with
          rng := (env.generate st.rng (turnGenCall env M t (turnConv conv qs))).2,
          mnt := (turnGenCall env M t (turnConv conv qs)).max_new_tokens,
          calls := st.calls ++ [turnGenCall env M t (turnConv conv qs)] },
       output)) ∨
    (∃ m, runTurn env M t conv st qs = Except.error (PyErr.other m) ∧
      ((env.generate st.rng (turnGenCall env M t (turnConv conv qs))).1 =
          Except.error (PyErr.other m) ∨
        ∃ ids, env.decode ids = Except.error (PyErr.other m))) := by
  rw [runTurn]
  cases hg : (env.generate st.rng (turnGenCall env M t (turnConv conv qs))).1 with
  | error e =>
      cases e with
      | runtimeError m =>
          left
          exact ⟨"ERROR", rfl⟩
      | other m =>
          right
          exact ⟨m, rfl, Or.inl rfl⟩
  | ok raw =>
      cases hp : postprocess env (turnConv conv qs)
          (turnGenCall env M t (turnConv conv qs)).num_input_tokens raw with
      | ok out =>
          left
          refine ⟨out, ?_⟩
          simp only [Except.bind]
          rw [hp]
          rfl
      | error e =>
          cases e with
          | runtimeError m =>
              left
              refine ⟨"ERROR", ?_⟩
              simp only [Except.bind]
              rw [hp]
              rfl
          | other m =>
              right
              refine ⟨m, ?_, Or.inr (postprocess_error _ _ _ _ _ hp)⟩
              simp only [Except.bind]
              rw [hp]
              rfl

/-- A `RuntimeError` from the generation call is caught: the turn returns
normally with the sentinel output `"ERROR"` in both the conversation and the
turn list. -/
theorem runTurn_runtimeError (env : Env) (M : Int) (t : ℚ) (conv : Conv)
    (st : RunSt) (qs : String) (m : String)
    (hg : (env.generate st.rng (turnGenCall env M t (turnConv conv qs))).1 =
      Except.error (PyErr.runtimeError m)) :
    runTurn env M t conv st qs = Except.ok
      ((turnConv conv qs).update_last_message "ERROR",
       { st with
          rng := (env.generate st.rng (turnGenCall env M t (turnConv conv qs))).2,
          mnt := (turnGenCall env M t (turnConv conv qs)).max_new_tokens,
          calls := st.calls ++ [turnGenCall env M t (turnConv conv qs)] },
       "ERROR") := by
  rw [runTurn, hg]
  rfl

/-- A non-`RuntimeError` from the generation call is not caught: the turn
aborts with it. -/
theorem runTurn_otherError (env : Env) (M : Int) (t : ℚ) (conv : Conv)
    (st : RunSt) (qs : String) (m : String)
    (hg : (env.generate st.rng (turnGenCall env M t (turnConv conv qs))).1 =
      Except.error (PyErr.other m)) :
    runTurn env M t conv st qs = Except.error (PyErr.other m) := by
  rw [runTurn, hg]
  rfl

/-- In a `NoOther` environment every turn succeeds. -/
theorem runTurn_ok_of_noOther (env : Env) (M : Int) (t : ℚ) (conv : Conv)
    (st : RunSt) (qs : String) (hno : NoOther env) :
    ∃ output, runTurn env M t conv st qs = Except.ok
      ((turnConv conv qs).update_last_message output,
       { st with
          rng := (env.generate st.rng (turnGenCall env M t (turnConv conv qs))).2,
          mnt := (turnGenCall env M t (turnConv conv qs)).max_new_tokens,
          calls := st.calls ++ [turnGenCall env M t (turnConv conv qs)] },
       output) := by
  rcases runTurn_shape env M t conv st qs with h | ⟨m, _, hsrc⟩
  · exact h
  · rcases hsrc with hsrc | ⟨ids, hsrc⟩
    · exact absurd hsrc (hno.1 _ _ m)
    · exact absurd hsrc (hno.2 ids m)

theorem runTurns_cons_ok (env : Env) (M : Int) (t : ℚ) (conv : Conv) (st : RunSt)
    (qs : String) (rest : List String) (conv1 : Conv) (st1 : RunSt) (out : String)
    (h1 : runTurn env M t conv st qs = Except.ok (conv1, st1, out)) :
    runTurns env M t conv st (qs :: rest) =
      (runTurns env M t conv1 st1 rest).map (fun p => (p.1, p.2.1, out :: p.2.2)) := by
  rw [runTurns, h1]
  dsimp only
  cases runTurns env M t conv1 st1 rest with
  | error e => rfl
  | ok p =>
      rcases p with ⟨c2, s2, os⟩
      rfl

theorem runTurns_cons_err (env : Env) (M : Int) (t : ℚ) (conv : Conv) (st : RunSt)
    (qs : String) (rest : List String) (e : PyErr)
    (h1 : runTurn env M t conv st qs = Except.error e) :
    runTurns env M t conv st (qs :: rest) = Except.error e := by
  rw [runTurns, h1]

theorem runChoice_eq_ok (env : Env) (p : String) (M : Int) (t : ℚ)
    (tq : List String) (i : Nat) (st : RunSt) (cv : Conv) (st1 : RunSt)
    (turns : List String)
    (h : runTurns env M t (env.template p)
        { st with rng := env.seedState i, seeds := st.seeds ++ [i] } tq =
      Except.ok (cv, st1, turns)) :
    runChoice env p M t tq i st = Except.ok (st1, { index := i, turns := turns }) := by
  rw [runChoice, h]

theorem runChoice_eq_err (env : Env) (p : String) (M : Int) (t : ℚ)
    (tq : List String) (i : Nat) (st : RunSt) (e : PyErr)
    (h : runTurns env M t (env.template p)
        { st with rng := env.seedState i, seeds := st.seeds ++ [i] } tq =
      Except.error e) :
    runChoice env p M t tq i st = Except.error e := by
  rw [runChoice, h]

theorem runChoices_cons_ok (env : Env) (p : String) (M : Int) (t : ℚ)
    (tq : List String) (i : Nat) (rest : List Nat) (st st1 : RunSt) (c : Choice)
    (h1 : runChoice env p M t tq i st = Except.ok (st1, c)) :
    runChoices env p M t tq (i :: rest) st =
      (runChoices env p M t tq rest st1).map (fun q => (q.1, c :: q.2)) := by
  rw [runChoices, h1]
  dsimp only
  cases runChoices env p M t tq rest st1 with
  | error e => rfl
  | ok q =>
      rcases q with ⟨s2, cs⟩
      rfl

theorem runChoices_cons_err (env : Env) (p : String) (M : Int) (t : ℚ)
    (tq : List String) (i : Nat) (rest : List Nat) (st : RunSt) (e : PyErr)
    (h1 : runChoice env p M t tq i st = Except.error e) :
    runChoices env p M t tq (i :: rest) st = Except.error e := by
  rw [runChoices, h1]

theorem runQuestion_eq_ok (env : Env) (p : String) (M : Int) (nc : Nat)
    (q : Question) (st st1 : RunSt) (chs : List Choice)
    (h : runChoices env p M ((env.temperature_config q.category).getD (7 / 10))
        q.turns (List.range nc) st = Except.ok (st1, chs)) :
    runQuestion env p M nc q st = Except.ok ({ st1 with ctr := st1.ctr + 1 },
      { question_id := q.question_id
        answer_id := env.uuid st1.ctr
        model_id := p
        choices := chs
        tstamp := env.time st1.ctr }) := by
  rw [runQuestion, h]

theorem runQuestion_eq_err (env : Env) (p : String) (M : Int) (nc : Nat)
    (q : Question) (st : RunSt) (e : PyErr)
    (h : runChoices env p M ((env.temperature_config q.category).getD (7 / 10))
        q.turns (List.range nc) st = Except.error e) :
    runQuestion env p M nc q st = Except.error e := by
  rw [runQuestion, h]

theorem runQuestions_cons_ok (env : Env) (p : String) (M : Int) (nc : Nat)
    (q : Question) (rest : List Question) (st st1 : RunSt) (ans : Answer)
    (h1 : runQuestion env p M nc q st = Except.ok (st1, ans)) :
    runQuestions env p M nc (q :: rest) st =
      (runQuestions env p M nc rest st1).map (fun r => (r.1, ans :: r.2)) := by
  rw [runQuestions, h1]
  dsimp only
  cases runQuestions env p M nc rest st1 with
  | error e => rfl
  | ok r =>
      rcases r with ⟨s2, anss⟩
      rfl

theorem runQuestions_cons_err (env : Env) (p : String) (M : Int) (nc : Nat)
    (q : Question) (rest : List Question) (st : RunSt) (e : PyErr)
    (h1 : runQuestion env p M nc q st = Except.error e) :
    runQuestions env p M nc (q :: rest) st = Except.error e := by
  rw [runQuestions, h1]

/-- Invariant of the turn loop: one output per turn, `ctr` and `seeds`
untouched, and every generate call appended to the trace carries the clipped
`max_new_tokens` computed from its own prompt length and the unchanged
`MAX_NEW_TOKEN`. -/
theorem runTurns_spec (env : Env) (M : Int) (t : ℚ) :
    ∀ (ts : List String) (conv : Conv) (st : RunSt) (conv2 : Conv) (st2 : RunSt)
      (outs : List String),
      runTurns env M t conv st ts = Except.ok (conv2, st2, outs) →
      outs.length = ts.length ∧ st2.ctr = st.ctr ∧ st2.seeds = st.seeds ∧
      ∃ cs, st2.calls = st.calls ++ cs ∧
        ∀ c ∈ cs, c.max_new_tokens =
          (if (c.num_input_tokens : Int) + M > 2048 then
            (2048 : Int) - c.num_input_tokens else M) := by
  intro ts
  induction ts with
  | nil =>
      intro conv st conv2 st2 outs h
      rw [runTurns] at h
      have h' := Except.ok.inj h
      simp only [Prod.mk.injEq] at h'
      obtain ⟨-, rfl, rfl⟩ := h'
      exact ⟨rfl, rfl, rfl, [], by simp, by intro c hc; simp at hc⟩
  | cons qs rest ih =>
      intro conv st conv2 st2 outs h
      rcases runTurn_shape env M t conv st qs with ⟨o, heq⟩ | ⟨m, heq, -⟩
      · rw [runTurns_cons_ok env M t conv st qs rest _ _ _ heq] at h
        cases hs : runTurns env M t ((turnConv conv qs).update_last_message o)
            { st with
                rng := (env.generate st.rng (turnGenCall env M t (turnConv conv qs))).2,
                mnt := (turnGenCall env M t (turnConv conv qs)).max_new_tokens,
                calls := st.calls ++ [turnGenCall env M t (turnConv conv qs)] }
            rest with
        | error e =>
            rw [hs] at h
            simp [Except.map] at h
        | ok r =>
            rcases r with ⟨c2, s2, os⟩
            rw [hs] at h
            simp only [Except.map, Except.ok.injEq, Prod.mk.injEq] at h
            obtain ⟨-, rfl, rfl⟩ := h
            obtain ⟨hlen, hctr, hseeds, cs, hcalls, hP⟩ :=
              ih _ _ _ _ _ hs
            refine ⟨by simp [hlen], by simpa using hctr, by simpa using hseeds,
              turnGenCall env M t (turnConv conv qs) :: cs, ?_, ?_⟩
            · rw [hcalls]
              simp
            · intro c hc
              rcases List.mem_cons.mp hc with rfl | hc
              · simp [turnGenCall]
              · exact hP c hc
      · rw [runTurns_cons_err env M t conv st qs rest _ heq] at h
        cases h

/-- Invariant of one choice: the produced entry carries the choice index and
one completion per turn; `ctr` is untouched, the seed trace grows by exactly
`[i]`, and the appended generate calls are clipped against the unchanged
`MAX_NEW_TOKEN`. -/
theorem runChoice_spec (env : Env) (p : String) (M : Int) (t : ℚ)
    (tq : List String) (i : Nat) (st st1 : RunSt) (c : Choice)
    (h : runChoice env p M t tq i st = Except.ok (st1, c)) :
    c.index = i ∧ c.turns.length = tq.length ∧ st1.ctr = st.ctr ∧
    st1.seeds = st.seeds ++ [i] ∧
    ∃ cs, st1.calls = st.calls ++ cs ∧
      ∀ c' ∈ cs, c'.max_new_tokens =
        (if (c'.num_input_tokens : Int) + M > 2048 then
          (2048 : Int) - c'.num_input_tokens else M) := by
  cases hs : runTurns env M t (env.template p)
      { st with rng := env.seedState i, seeds := st.seeds ++ [i] } tq with
  | error e =>
      rw [runChoice_eq_err env p M t tq i st e hs] at h
      cases h
  | ok r =>
      rcases r with ⟨cv, s1, turns⟩
      rw [runChoice_eq_ok env p M t tq i st cv s1 turns hs] at h
      have h' := Except.ok.inj h
      simp only [Prod.mk.injEq] at h'
      obtain ⟨rfl, rfl⟩ := h'
      obtain ⟨hlen, hctr, hseeds, cs, hcalls, hP⟩ := runTurns_spec env M t tq _ _ _ _ _ hs
      exact ⟨rfl, hlen, by simpa using hctr, by simpa using hseeds, cs,
        by simpa using hcalls, hP⟩

/-- Invariant of the choice loop over an index list: one choice entry per
index, carrying that index and one completion per turn; `ctr` untouched, the
seed trace grows by exactly the index list, calls clipped. -/
theorem runChoices_spec (env : Env) (p : String) (M : Int) (t : ℚ)
    (tq : List String) :
    ∀ (idxs : List Nat) (st st2 : RunSt) (cs : List Choice),
      runChoices env p M t tq idxs st = Except.ok (st2, cs) →
      cs.length = idxs.length ∧ st2.ctr = st.ctr ∧
      st2.seeds = st.seeds ++ idxs ∧
      (∀ j (hj : j < cs.length) (hj2 : j < idxs.length),
        (cs.get ⟨j, hj⟩).index = idxs.get ⟨j, hj2⟩ ∧
        (cs.get ⟨j, hj⟩).turns.length = tq.length) ∧
      ∃ gcs, st2.calls = st.calls ++ gcs ∧
        ∀ c' ∈ gcs, c'.max_new_tokens =
          (if (c'.num_input_tokens : Int) + M > 2048 then
            (2048 : Int) - c'.num_input_tokens else M) := by
  intro idxs
  induction idxs with
  | nil =>
      intro st st2 cs h
      rw [runChoices] at h
      have h' := Except.ok.inj h
      simp only [Prod.mk.injEq] at h'
      obtain ⟨rfl, rfl⟩ := h'
      refine ⟨rfl, rfl, by simp, ?_, [], by simp, by intro c hc; simp at hc⟩
      intro j hj hj2
      simp at hj
  | cons i rest ih =>
      intro st st2 cs h
      cases hc : runChoice env p M t tq i st with
      | error e =>
          rw [runChoices_cons_err env p M t tq i rest st e hc] at h
          cases h
      | ok r =>
          rcases r with ⟨s1, c⟩
          rw [runChoices_cons_ok env p M t tq i rest st s1 c hc] at h
          cases hs : runChoices env p M t tq rest s1 with
          | error e =>
              rw [hs] at h
              simp [Except.map] at h
          | ok r2 =>
              rcases r2 with ⟨s2, cs2⟩
              rw [hs] at h
              simp only [Except.map, Except.ok.injEq, Prod.mk.injEq] at h
              obtain ⟨rfl, rfl⟩ := h
              obtain ⟨hcidx, hcturns, hcctr, hcseeds, cs0, hccalls, hcP⟩ :=
                runChoice_spec env p M t tq i st s1 c hc
              obtain ⟨hlen, hctr, hseeds, hidx, gcs, hcalls, hP⟩ := ih s1 s2 cs2 hs
              refine ⟨by simp [hlen], by rw [hctr, hcctr], ?_, ?_, cs0 ++ gcs, ?_, ?_⟩
              · rw [hseeds, hcseeds, List.append_assoc]
                rfl
              · intro j hj hj2
                cases j with
                | zero => exact ⟨hcidx, hcturns⟩
                | succ j0 =>
                    simp only [List.length_cons] at hj hj2
                    exact hidx j0 (by omega) (by omega)
              · rw [hcalls, hccalls, List.append_assoc]
              · intro c' hc'
                rcases List.mem_append.mp hc' with hc' | hc'
                · exact hcP c' hc'
                · exact hP c' hc'

/-- Invariant of one question: the appended record carries the question id,
the model id, a fresh uuid and timestamp at the current counter, and
`num_choices` choice entries indexed `0, …, num_choices-1`, each with one
completion per question turn; the counter advances by one, the seed trace by
`range num_choices`. -/
theorem runQuestion_spec (env : Env) (p : String) (M : Int) (nc : Nat)
    (q : Question) (st st1 : RunSt) (ans : Answer)
    (h : runQuestion env p M nc q st = Except.ok (st1, ans)) :
    ans.question_id = q.question_id ∧ ans.model_id = p ∧
    ans.answer_id = env.uuid st.ctr ∧ ans.tstamp = env.time st.ctr ∧
    ans.choices.length = nc ∧
    (∀ j (hj : j < ans.choices.length),
      (ans.choices.get ⟨j, hj⟩).index = j ∧
      (ans.choices.get ⟨j, hj⟩).turns.length = q.turns.length) ∧
    st1.ctr = st.ctr + 1 ∧ st1.seeds = st.seeds ++ List.range nc ∧
    ∃ gcs, st1.calls = st.calls ++ gcs ∧
      ∀ c' ∈ gcs, c'.max_new_tokens =
        (if (c'.num_input_tokens : Int) + M > 2048 then
          (2048 : Int) - c'.num_input_tokens else M) := by
  cases hs : runChoices env p M ((env.temperature_config q.category).getD (7 / 10))
      q.turns (List.range nc) st with
  | error e =>
      rw [runQuestion_eq_err env p M nc q st e hs] at h
      cases h
  | ok r =>
      rcases r with ⟨s1, chs⟩
      rw [runQuestion_eq_ok env p M nc q st s1 chs hs] at h
      have h' := Except.ok.inj h
      simp only [Prod.mk.injEq] at h'
      obtain ⟨rfl, rfl⟩ := h'
      obtain ⟨hlen, hctr, hseeds, hidx, gcs, hcalls, hP⟩ :=
        runChoices_spec env p M _ q.turns (List.range nc) st s1 chs hs
      refine ⟨rfl, rfl, by simp [hctr], by simp [hctr], by simpa using hlen, ?_,
        by simp [hctr], by simpa using hseeds, gcs, by simpa using hcalls, hP⟩
      intro j hj
      have hj2 : j < (List.range nc).length := by
        simp only [List.length_range]
        simp only [hlen, List.length_range] at hj
        exact hj
      have := hidx j (by simpa using hj) hj2
      simpa [List.getElem_range] using this

/-- Invariant of the question loop: one record per question, in order, with
uuid/timestamp counters advancing one per question, the seed trace growing
by `range num_choices` per question, and all generate calls clipped. -/
theorem runQuestions_spec (env : Env) (p : String) (M : Int) (nc : Nat) :
    ∀ (qs : List Question) (st st2 : RunSt) (anss : List Answer),
      runQuestions env p M nc qs st = Except.ok (st2, anss) →
      anss.length = qs.length ∧ st2.ctr = st.ctr + qs.length ∧
      st2.seeds = st.seeds ++ (qs.map (fun _ => List.range nc)).flatten ∧
      (∀ k (hk : k < anss.length) (hq : k < qs.length),
        (anss.get ⟨k, hk⟩).question_id = (qs.get ⟨k, hq⟩).question_id ∧
        (anss.get ⟨k, hk⟩).model_id = p ∧
        (anss.get ⟨k, hk⟩).answer_id = env.uuid (st.ctr + k) ∧
        (anss.get ⟨k, hk⟩).tstamp = env.time (st.ctr + k) ∧
        (anss.get ⟨k, hk⟩).choices.length = nc ∧
        ∀ j (hj : j < (anss.get ⟨k, hk⟩).choices.length),
          ((anss.get ⟨k, hk⟩).choices.get ⟨j, hj⟩).index = j ∧
          ((anss.get ⟨k, hk⟩).choices.get ⟨j, hj⟩).turns.length =
            (qs.get ⟨k, hq⟩).turns.length) ∧
      ∃ gcs, st2.calls = st.calls ++ gcs ∧
        ∀ c' ∈ gcs, c'.max_new_tokens =
          (if (c'.num_input_tokens : Int) + M > 2048 then
            (2048 : Int) - c'.num_input_tokens else M) := by
  intro qs
  induction qs with
  | nil =>
      intro st st2 anss h
      rw [runQuestions] at h
      have h' := Except.ok.inj h
      simp only [Prod.mk.injEq] at h'
      obtain ⟨rfl, rfl⟩ := h'
      refine ⟨rfl, by simp, by simp, ?_, [], by simp, by intro c hc; simp at hc⟩
      intro k hk hq
      simp at hk
  | cons q rest ih =>
      intro st st2 anss h
      cases hq0 : runQuestion env p M nc q st with
      | error e =>
          rw [runQuestions_cons_err env p M nc q rest st e hq0] at h
          cases h
      | ok r =>
          rcases r with ⟨s1, ans⟩
          rw [runQuestions_cons_ok env p M nc q rest st s1 ans hq0] at h
          cases hs : runQuestions env p M nc rest s1 with
          | error e =>
              rw [hs] at h
              simp [Except.map] at h
          | ok r2 =>
              rcases r2 with ⟨s2, anss2⟩
              rw [hs] at h
              simp only [Except.map, Except.ok.injEq, Prod.mk.injEq] at h
              obtain ⟨rfl, rfl⟩ := h
              obtain ⟨hqid, hmid, haid, hts, hclen, hjs, hctr1, hseeds1, gcs1,
                hcalls1, hP1⟩ := runQuestion_spec env p M nc q st s1 ans hq0
              obtain ⟨hlen, hctr, hseeds, hrec, gcs, hcalls, hP⟩ := ih s1 s2 anss2 hs
              refine ⟨by simp [hlen], by rw [hctr, hctr1, List.length_cons]; omega, ?_, ?_,
                gcs1 ++ gcs, ?_, ?_⟩
              · rw [hseeds, hseeds1, List.append_assoc]
                simp
              · intro k hk hq
                cases k with
                | zero =>
                    refine ⟨hqid, hmid, by simpa using haid, by simpa using hts,
                      hclen, ?_⟩
                    intro j hj
                    exact hjs j hj
                | succ k0 =>
                    simp only [List.length_cons] at hk hq
                    have hrec0 := hrec k0 (by omega) (by omega)
                    have harith : s1.ctr + k0 = st.ctr + (k0 + 1) := by
                      rw [hctr1]
                      omega
                    simpa [harith] using hrec0
              · rw [hcalls, hcalls1, List.append_assoc]
              · intro c' hc'
                rcases List.mem_append.mp hc' with hc' | hc'
                · exact hP1 c' hc'
                · exact hP c' hc'

theorem runTurns_ok_of_noOther (env : Env) (M : Int) (t : ℚ) (hno : NoOther env) :
    ∀ (ts : List String) (conv : Conv) (st : RunSt),
      ∃ conv2 st2 outs, runTurns env M t conv st ts = Except.ok (conv2, st2, outs) := by
  intro ts
  induction ts with
  | nil =>
      intro conv st
      exact ⟨conv, st, [], by rw [runTurns]⟩
  | cons qs rest ih =>
      intro conv st
      obtain ⟨o, heq⟩ := runTurn_ok_of_noOther env M t conv st qs hno
      obtain ⟨c2, s2, os, hs⟩ := ih ((turnConv conv qs).update_last_message o)
        { st with
            rng := (env.generate st.rng (turnGenCall env M t (turnConv conv qs))).2,
            mnt := (turnGenCall env M t (turnConv conv qs)).max_new_tokens,
            calls := st.calls ++ [turnGenCall env M t (turnConv conv qs)] }
      refine ⟨c2, s2, o :: os, ?_⟩
      rw [runTurns_cons_ok env M t conv st qs rest _ _ _ heq, hs]
      rfl

theorem runChoice_ok_of_noOther (env : Env) (p : String) (M : Int) (t : ℚ)
    (tq : List String) (i : Nat) (st : RunSt) (hno : NoOther env) :
    ∃ st1 c, runChoice env p M t tq i st = Except.ok (st1, c) := by
  obtain ⟨cv, s1, outs, hs⟩ := runTurns_ok_of_noOther env M t hno tq (env.template p)
    { st with rng := env.seedState i, seeds := st.seeds ++ [i] }
  exact ⟨s1, { index := i, turns := outs },
    runChoice_eq_ok env p M t tq i st cv s1 outs hs⟩

theorem runChoices_ok_of_noOther (env : Env) (p : String) (M : Int) (t : ℚ)
    (tq : List String) (hno : NoOther env) :
    ∀ (idxs : List Nat) (st : RunSt),
      ∃ st2 cs, runChoices env p M t tq idxs st = Except.ok (st2, cs) := by
  intro idxs
  induction idxs with
  | nil =>
      intro st
      exact ⟨st, [], by rw [runChoices]⟩
  | cons i rest ih =>
      intro st
      obtain ⟨s1, c, hc⟩ := runChoice_ok_of_noOther env p M t tq i st hno
      obtain ⟨s2, cs, hs⟩ := ih s1
      refine ⟨s2, c :: cs, ?_⟩
      rw [runChoices_cons_ok env p M t tq i rest st s1 c hc, hs]
      rfl

theorem runQuestion_ok_of_noOther (env : Env) (p : String) (M : Int) (nc : Nat)
    (q : Question) (st : RunSt) (hno : NoOther env) :
    ∃ st1 ans, runQuestion env p M nc q st = Except.ok (st1, ans) := by
  obtain ⟨s1, chs, hs⟩ := runChoices_ok_of_noOther env p M
    ((env.temperature_config q.category).getD (7 / 10)) q.turns hno (List.range nc) st
  exact ⟨_, _, runQuestion_eq_ok env p M nc q st s1 chs hs⟩

theorem runQuestions_ok_of_noOther (env : Env) (p : String) (M : Int) (nc : Nat)
    (hno : NoOther env) :
    ∀ (qs : List Question) (st : RunSt),
      ∃ st2 anss, runQuestions env p M nc qs st = Except.ok (st2, anss) := by
  intro qs
  induction qs with
  | nil =>
      intro st
      exact ⟨st, [], by rw [runQuestions]⟩
  | cons q rest ih =>
      intro st
      obtain ⟨s1, ans, hq⟩ := runQuestion_ok_of_noOther env p M nc q st hno
      obtain ⟨s2, anss, hs⟩ := ih s1
      refine ⟨s2, ans :: anss, ?_⟩
      rw [runQuestions_cons_ok env p M nc q rest st s1 ans hq, hs]
      rfl

/-! Congruence of the choice loop in the incoming RNG state and
`max_new_token` local: `torch.manual_seed(i)` overwrites the RNG before each
choice and the clipping overwrites `max_new_token` before each generate
call, so neither stale value can influence a choice's outputs. -/

/-- Agreement of two loop states on every field except `mnt`. -/
def AgreeRCSC (st st' : RunSt) : Prop :=
  st.rng = st'.rng ∧ st.ctr = st'.ctr ∧ st.seeds = st'.seeds ∧ st.calls = st'.calls

/-- Agreement of two loop states on every field except `rng` and `mnt`. -/
def AgreeCSC (st st' : RunSt) : Prop :=
  st.ctr = st'.ctr ∧ st.seeds = st'.seeds ∧ st.calls = st'.calls

theorem runTurn_congr (env : Env) (M : Int) (t : ℚ) (conv : Conv) (qs : String)
    (st st' : RunSt) (h : AgreeRCSC st st') :
    runTurn env M t conv st qs = runTurn env M t conv st' qs := by
  obtain ⟨h1, h2, h3, h4⟩ := h
  simp only [runTurn]
  rw [h1, h2, h3, h4]

/-- Pointwise agreement of two turn-loop results: equal errors, or equal
conversations and outputs with states agreeing outside `mnt`. -/
def TurnsAgree : Except PyErr (Conv × RunSt × List String) →
    Except PyErr (Conv × RunSt × List String) → Prop
  | Except.error e, Except.error e' => e = e'
  | Except.ok (c, s, o), Except.ok (c', s', o') => c = c' ∧ o = o' ∧ AgreeRCSC s s'
  | _, _ => False

theorem turnsAgree_refl (r : Except PyErr (Conv × RunSt × List String)) :
    TurnsAgree r r := by
  cases r with
  | error e => exact rfl
  | ok p =>
      rcases p with ⟨c, s, o⟩
      exact ⟨rfl, rfl, rfl, rfl, rfl, rfl⟩

theorem runTurns_congr (env : Env) (M : Int) (t : ℚ) :
    ∀ (ts : List String) (conv : Conv) (st st' : RunSt), AgreeRCSC st st' →
      TurnsAgree (runTurns env M t conv st ts) (runTurns env M t conv st' ts) := by
  intro ts
  induction ts with
  | nil =>
      intro conv st st' h
      rw [runTurns, runTurns]
      exact ⟨rfl, rfl, h⟩
  | cons qs rest ih =>
      intro conv st st' h
      have heq := runTurn_congr env M t conv qs st st' h
      cases hr : runTurn env M t conv st' qs with
      | error e =>
          rw [runTurns_cons_err env M t conv st qs rest e (heq.trans hr),
            runTurns_cons_err env M t conv st' qs rest e hr]
          exact rfl
      | ok r =>
          rcases r with ⟨c1, s1, o⟩
          rw [runTurns_cons_ok env M t conv st qs rest c1 s1 o (heq.trans hr),
            runTurns_cons_ok env M t conv st' qs rest c1 s1 o hr]
          have hrec := turnsAgree_refl (runTurns env M t c1 s1 rest)
          cases hs : runTurns env M t c1 s1 rest with
          | error e => exact rfl
          | ok r2 =>
              rcases r2 with ⟨c2, s2, os⟩
              exact ⟨rfl, rfl, rfl, rfl, rfl, rfl⟩

/-- Pointwise agreement of two choice results. -/
def ChoiceAgree : Except PyErr (RunSt × Choice) → Except PyErr (RunSt × Choice) → Prop
  | Except.error e, Except.error e' => e = e'
  | Except.ok (s, c), Except.ok (s', c') => c = c' ∧ AgreeCSC s s'
  | _, _ => False

theorem runChoice_congr (env : Env) (p : String) (M : Int) (t : ℚ)
    (tq : List String) (i : Nat) (st st' : RunSt) (h : AgreeCSC st st') :
    ChoiceAgree (runChoice env p M t tq i st) (runChoice env p M t tq i st') := by
  obtain ⟨h1, h2, h3⟩ := h
  have hA : AgreeRCSC { st with rng := env.seedState i, seeds := st.seeds ++ [i] }
      { st' with rng := env.seedState i, seeds := st'.seeds ++ [i] } :=
    ⟨rfl, h1, by rw [h2], h3⟩
  have htc := runTurns_congr env M t tq (env.template p) _ _ hA
  cases ht1 : runTurns env M t (env.template p)
      { st with rng := env.seedState i, seeds := st.seeds ++ [i] } tq with
  | error e =>
      cases ht2 : runTurns env M t (env.template p)
          { st' with rng := env.seedState i, seeds := st'.seeds ++ [i] } tq with
      | error e2 =>
          rw [ht1, ht2] at htc
          rw [runChoice_eq_err env p M t tq i st e ht1,
            runChoice_eq_err env p M t tq i st' e2 ht2]
          exact htc
      | ok r2 =>
          rw [ht1, ht2] at htc
          rcases r2 with ⟨cv2, s2, os2⟩
          exact absurd htc (by intro hF; exact hF)
  | ok r =>
      rcases r with ⟨cv1, s1, os1⟩
      cases ht2 : runTurns env M t (env.template p)
          { st' with rng := env.seedState i, seeds := st'.seeds ++ [i] } tq with
      | error e2 =>
          rw [ht1, ht2] at htc
          exact absurd htc (by intro hF; exact hF)
      | ok r2 =>
          rcases r2 with ⟨cv2, s2, os2⟩
          rw [ht1, ht2] at htc
          obtain ⟨hcv, hos, hA2⟩ := htc
          rw [runChoice_eq_ok env p M t tq i st cv1 s1 os1 ht1,
            runChoice_eq_ok env p M t tq i st' cv2 s2 os2 ht2]
          exact ⟨by rw [hos], hA2.2.1, hA2.2.2.1, hA2.2.2.2⟩

/-- Pointwise agreement of two choice-loop results. -/
def ChoicesAgree : Except PyErr (RunSt × List Choice) →
    Except PyErr (RunSt × List Choice) → Prop
  | Except.error e, Except.error e' => e = e'
  | Except.ok (s, cs), Except.ok (s', cs') => cs = cs' ∧ AgreeCSC s s'
  | _, _ => False

theorem runChoices_congr (env : Env) (p : String) (M : Int) (t : ℚ)
    (tq : List String) :
    ∀ (idxs : List Nat) (st st' : RunSt), AgreeCSC st st' →
      ChoicesAgree (runChoices env p M t tq idxs st)
        (runChoices env p M t tq idxs st') := by
  intro idxs
  induction idxs with
  | nil =>
      intro st st' h
      rw [runChoices, runChoices]
      exact ⟨rfl, h⟩
  | cons i rest ih =>
      intro st st' h
      have hc := runChoice_congr env p M t tq i st st' h
      cases hc1 : runChoice env p M t tq i st with
      | error e =>
          cases hc2 : runChoice env p M t tq i st' with
          | error e2 =>
              rw [hc1, hc2] at hc
              rw [runChoices_cons_err env p M t tq i rest st e hc1,
                runChoices_cons_err env p M t tq i rest st' e2 hc2]
              exact hc
          | ok r2 =>
              rw [hc1, hc2] at hc
              rcases r2 with ⟨s2, c2⟩
              exact absurd hc (by intro hF; exact hF)
      | ok r =>
          rcases r with ⟨s1, c1⟩
          cases hc2 : runChoice env p M t tq i st' with
          | error e2 =>
              rw [hc1, hc2] at hc
              exact absurd hc (by intro hF; exact hF)
          | ok r2 =>
              rcases r2 with ⟨s1', c1'⟩
              rw [hc1, hc2] at hc
              obtain ⟨hcc, hA⟩ := hc
              rw [runChoices_cons_ok env p M t tq i rest st s1 c1 hc1,
                runChoices_cons_ok env p M t tq i rest st' s1' c1' hc2]
              have hrec := ih s1 s1' hA
              cases hr1 : runChoices env p M t tq rest s1 with
              | error e =>
                  cases hr2 : runChoices env p M t tq rest s1' with
                  | error e2 =>
                      rw [hr1, hr2] at hrec
                      subst hrec
                      exact rfl
                  | ok rr2 =>
                      rw [hr1, hr2] at hrec
                      rcases rr2 with ⟨ss2, ccs2⟩
                      exact absurd hrec (by intro hF; exact hF)
              | ok rr =>
                  rcases rr with ⟨ss1, ccs1⟩
                  cases hr2 : runChoices env p M t tq rest s1' with
                  | error e2 =>
                      rw [hr1, hr2] at hrec
                      exact absurd hrec (by intro hF; exact hF)
                  | ok rr2 =>
                      rcases rr2 with ⟨ss2, ccs2⟩
                      rw [hr1, hr2] at hrec
                      obtain ⟨hccs, hA2⟩ := hrec
                      exact ⟨by rw [hcc, hccs], hA2⟩

/-- A sample conversation template for concrete runs. -/
def convT : Conv :=
  { name := "one_shot"
    role_user := "USER"
    role_assistant := "ASSISTANT"
    messages := []
    stop_token_ids := []
    stop_str := StopStr.none }

/-- A concrete environment whose generation call always raises
`RuntimeError` (e.g. CUDA exhaustion inside `model.generate`). -/
def envFail : Env :=
  { template := fun _ => convT
    temperature_config := fun _ => Option.none
    promptOf := fun _ => "P"
    tokenize := fun _ => [1, 2, 3]
    seedState := fun i => i
    generate := fun rng _ => (Except.error (PyErr.runtimeError "CUDA out of memory"), rng)
    decode := fun _ => Except.ok "decoded"
    special_tokens := []
    is_encoder_decoder := false
    uuid := fun n => toString n
    time := fun n => n }

/-- A concrete environment whose generation call raises a non-`RuntimeError`
exception. -/
def envOther : Env :=
  { envFail with
    generate := fun rng _ => (Except.error (PyErr.other "KeyError"), rng) }

/-- The question, generate-call record, final state and answer record of a
concrete one-question, one-choice run against `envFail`. -/
def qF : Question :=
  { question_id := 81, category := "writing", turns := ["Q1", "Q2"] }

/-- The generate call `envFail` receives on each turn of `qF`. -/
def cF : GenCall :=
  { prompt := "P", num_input_tokens := 3, max_new_tokens := 1024,
    do_sample := true, temperature := 7 / 10 }

/-- The final loop state of the concrete `envFail` run. -/
def stF : RunSt :=
  { rng := 0, mnt := 1024, ctr := 1, seeds := [0], calls := [cF, cF] }

/-- The answer record of the concrete `envFail` run. -/
def ansF : Answer :=
  { question_id := 81, answer_id := "0", model_id := "model",
    choices := [{ index := 0, turns := ["ERROR", "ERROR"] }], tstamp := 0 }

theorem envFail_run_eq :
    get_model_answers envFail "model" [qF] 1024 1 = Except.ok (stF, [ansF]) := by
  norm_num [get_model_answers, runQuestions, runQuestion, runChoices, runChoice,
    runTurns, runTurn, turnGenCall, turnConv, postprocess, catchRuntime, envFail,
    convT, qF, cF, stF, ansF, Except.bind, Except.map, Conv.append_message,
    Conv.update_last_message, List.range]
  decide

theorem noOther_envFail : NoOther envFail := by
  constructor
  · intro rng c m h
    simp [envFail] at h
  · intro ids m h
    simp [envFail] at h

/-- **C1.** A `RuntimeError` raised by the generation call (or the
decoding/post-processing of the try block) is caught: the turn's output is
the literal sentinel `"ERROR"`, recorded in the conversation and the turn
list, the trace still grows by that generate call, and the run continues —
in an environment that raises nothing but `RuntimeError`s, the whole run
still completes with one answer record per question. -/
theorem generation_error_caught :
    (∀ (env : Env) (M : Int) (t : ℚ) (conv : Conv) (st : RunSt) (qs m : String),
      (env.generate st.rng (turnGenCall env M t (turnConv conv qs))).1 =
        Except.error (PyErr.runtimeError m) →
      runTurn env M t conv st qs = Except.ok
        ((turnConv conv qs).update_last_message "ERROR",
         { st with
            rng := (env.generate st.rng (turnGenCall env M t (turnConv conv qs))).2,
            mnt := (turnGenCall env M t (turnConv conv qs)).max_new_tokens,
            calls := st.calls ++ [turnGenCall env M t (turnConv conv qs)] },
         "ERROR")) ∧
    (∀ (env : Env) (p : String) (questions : List Question) (M : Int) (nc : Nat),
      NoOther env →
      ∃ stOut answers, get_model_answers env p questions M nc =
        Except.ok (stOut, answers) ∧ answers.length = questions.length) := by
  constructor
  · intro env M t conv st qs m hg
    exact runTurn_runtimeError env M t conv st qs m hg
  · intro env p questions M nc hno
    obtain ⟨st2, anss, hq⟩ := runQuestions_ok_of_noOther env p M nc hno questions
      { rng := 0, mnt := M, ctr := 0, seeds := [], calls := [] }
    obtain ⟨hlen, -, -, -, -⟩ := runQuestions_spec env p M nc questions _ _ _ hq
    exact ⟨st2, anss, hq, hlen⟩

/-- Witness for `generation_error_caught`: a generation call that raises
`RuntimeError` yields the `"ERROR"` turn, and a full run against the
always-failing environment still returns one record for its one question. -/
theorem generation_error_caught_witness :
    (runTurn envFail 1024 (7 / 10) convT ⟨0, 1024, 0, [], []⟩ "Q" =
      Except.ok ((turnConv convT "Q").update_last_message "ERROR",
        ⟨0, 1024, 0, [],
          [turnGenCall envFail 1024 (7 / 10) (turnConv convT "Q")]⟩, "ERROR")) ∧
    (∃ stOut answers, get_model_answers envFail "model" [qF] 1024 1 =
      Except.ok (stOut, answers) ∧ answers.length = 1) :=
  ⟨generation_error_caught.1 envFail 1024 (7 / 10) convT ⟨0, 1024, 0, [], []⟩
      "Q" "CUDA out of memory" rfl,
   generation_error_caught.2 envFail "model" [qF] 1024 1 noOther_envFail⟩

/-- Counterexample to C5 as stated: GPU exhaustion during generation raises
`RuntimeError` ("CUDA out of memory"), which the catch-all around the
generation call intercepts — the run does not terminate but completes
normally, with the `"ERROR"` sentinel recorded for each turn. -/
theorem gpu_exhaustion_not_propagated :
    (envFail.generate 0 (turnGenCall envFail 1024 (7 / 10) (turnConv convT "Q1"))).1 =
      Except.error (PyErr.runtimeError "CUDA out of memory") ∧
    get_model_answers envFail "model" [qF] 1024 1 = Except.ok (stF, [ansF]) ∧
    get_model_answers envFail "model" [qF] 1024 1 ≠
      Except.error (PyErr.runtimeError "CUDA out of memory") := by
  refine ⟨rfl, envFail_run_eq, ?_⟩
  rw [envFail_run_eq]
  exact fun h => Except.noConfusion h

/-- **C5 (amended).** No handler in the script intercepts a
non-`RuntimeError` exception: one escaping the generation call aborts the
turn, and an aborted stage aborts every enclosing loop up to
`get_model_answers` itself with the same exception.  GPU exhaustion during
generation, however, raises `RuntimeError` and is intercepted by the
catch-all, so it never aborts the turn (last conjunct). -/
theorem non_runtime_errors_propagate :
    (∀ (env : Env) (M : Int) (t : ℚ) (conv : Conv) (st : RunSt) (qs m : String),
      (env.generate st.rng (turnGenCall env M t (turnConv conv qs))).1 =
        Except.error (PyErr.other m) →
      runTurn env M t conv st qs = Except.error (PyErr.other m)) ∧
    (∀ (env : Env) (M : Int) (t : ℚ) (conv : Conv) (st : RunSt) (qs : String)
      (rest : List String) (e : PyErr),
      runTurn env M t conv st qs = Except.error e →
      runTurns env M t conv st (qs :: rest) = Except.error e) ∧
    (∀ (env : Env) (p : String) (M : Int) (t : ℚ) (tq : List String) (i : Nat)
      (st : RunSt) (e : PyErr),
      runTurns env M t (env.template p)
        { st with rng := env.seedState i, seeds := st.seeds ++ [i] } tq =
        Except.error e →
      runChoice env p M t tq i st = Except.error e) ∧
    (∀ (env : Env) (p : String) (M : Int) (t : ℚ) (tq : List String) (i : Nat)
      (rest : List Nat) (st : RunSt) (e : PyErr),
      runChoice env p M t tq i st = Except.error e →
      runChoices env p M t tq (i :: rest) st = Except.error e) ∧
    (∀ (env : Env) (p : String) (M : Int) (nc : Nat) (q : Question) (st : RunSt)
      (e : PyErr),
      runChoices env p M ((env.temperature_config q.category).getD (7 / 10))
        q.turns (List.range nc) st = Except.error e →
      runQuestion env p M nc q st = Except.error e) ∧
    (∀ (env : Env) (p : String) (M : Int) (nc : Nat) (q : Question)
      (rest : List Question) (st : RunSt) (e : PyErr),
      runQuestion env p M nc q st = Except.error e →
      runQuestions env p M nc (q :: rest) st = Except.error e) ∧
    (∀ (env : Env) (p : String) (M : Int) (nc : Nat) (questions : List Question)
      (e : PyErr),
      runQuestions env p M nc questions
        { rng := 0, mnt := M, ctr := 0, seeds := [], calls := [] } =
        Except.error e →
      get_model_answers env p questions M nc = Except.error e) ∧
    (∀ (env : Env) (M : Int) (t : ℚ) (conv : Conv) (st : RunSt) (qs m : String)
      (e : PyErr),
      (env.generate st.rng (turnGenCall env M t (turnConv conv qs))).1 =
        Except.error (PyErr.runtimeError m) →
      runTurn env M t conv st qs ≠ Except.error e) := by
  refine ⟨?_, ?_, ?_, ?_, ?_, ?_, ?_, ?_⟩
  · intro env M t conv st qs m hg
    exact runTurn_otherError env M t conv st qs m hg
  · intro env M t conv st qs rest e h
    exact runTurns_cons_err env M t conv st qs rest e h
  · intro env p M t tq i st e h
    exact runChoice_eq_err env p M t tq i st e h
  · intro env p M t tq i rest st e h
    exact runChoices_cons_err env p M t tq i rest st e h
  · intro env p M nc q st e h
    exact runQuestion_eq_err env p M nc q st e h
  · intro env p M nc q rest st e h
    exact runQuestions_cons_err env p M nc q rest st e h
  · intro env p M nc questions e h
    rw [get_model_answers]
    exact h
  · intro env M t conv st qs m e hg
    rw [runTurn_runtimeError env M t conv st qs m hg]
    exact fun h => Except.noConfusion h

/-- Witness for `non_runtime_errors_propagate`: a non-`RuntimeError` from the
generation call aborts the turn, the turn loop, the choice, the choice loop,
the question, the question loop, and the whole run — while a `RuntimeError`
(GPU exhaustion) from the generation call does not abort the turn. -/
theorem non_runtime_errors_propagate_witness :
    runTurn envOther 1024 (7 / 10) convT ⟨0, 1024, 0, [0], []⟩ "Q" =
      Except.error (PyErr.other "KeyError") ∧
    runTurns envOther 1024 (7 / 10) convT ⟨0, 1024, 0, [0], []⟩ ["Q"] =
      Except.error (PyErr.other "KeyError") ∧
    runChoice envOther "model" 1024 (7 / 10) ["Q"] 0 ⟨0, 1024, 0, [], []⟩ =
      Except.error (PyErr.other "KeyError") ∧
    runChoices envOther "model" 1024 (7 / 10) ["Q"] [0] ⟨0, 1024, 0, [], []⟩ =
      Except.error (PyErr.other "KeyError") ∧
    runQuestion envOther "model" 1024 1
      { question_id := 81, category := "writing", turns := ["Q"] }
      ⟨0, 1024, 0, [], []⟩ = Except.error (PyErr.other "KeyError") ∧
    runQuestions envOther "model" 1024 1
      [{ question_id := 81, category := "writing", turns := ["Q"] }]
      ⟨0, 1024, 0, [], []⟩ = Except.error (PyErr.other "KeyError") ∧
    get_model_answers envOther "model"
      [{ question_id := 81, category := "writing", turns := ["Q"] }] 1024 1 =
      Except.error (PyErr.other "KeyError") ∧
    runTurn envFail 1024 (7 / 10) convT ⟨0, 1024, 0, [], []⟩ "Q" ≠
      Except.error (PyErr.runtimeError "CUDA out of memory") := by
  have h1 := non_runtime_errors_propagate.1 envOther 1024 (7 / 10) convT
    ⟨0, 1024, 0, [0], []⟩ "Q" "KeyError" rfl
  have h2 := non_runtime_errors_propagate.2.1 envOther 1024 (7 / 10) convT
    ⟨0, 1024, 0, [0], []⟩ "Q" [] _ h1
  have h3 := non_runtime_errors_propagate.2.2.1 envOther "model" 1024 (7 / 10)
    ["Q"] 0 ⟨0, 1024, 0, [], []⟩ _ h2
  have h4 := non_runtime_errors_propagate.2.2.2.1 envOther "model" 1024 (7 / 10)
    ["Q"] 0 [] ⟨0, 1024, 0, [], []⟩ _ h3
  have h5 := non_runtime_errors_propagate.2.2.2.2.1 envOther "model" 1024 1
    { question_id := 81, category := "writing", turns := ["Q"] }
    ⟨0, 1024, 0, [], []⟩ _ h4
  have h6 := non_runtime_errors_propagate.2.2.2.2.2.1 envOther "model" 1024 1
    { question_id := 81, category := "writing", turns := ["Q"] } []
    ⟨0, 1024, 0, [], []⟩ _ h5
  have h7 := non_runtime_errors_propagate.2.2.2.2.2.2.1 envOther "model" 1024 1
    [{ question_id := 81, category := "writing", turns := ["Q"] }] _ h6
  have h8 := non_runtime_errors_propagate.2.2.2.2.2.2.2 envFail 1024 (7 / 10)
    convT ⟨0, 1024, 0, [], []⟩ "Q" "CUDA out of memory"
    (PyErr.runtimeError "CUDA out of memory") rfl
  exact ⟨h1, h2, h3, h4, h5, h6, h7, h8⟩

/-- **C6.** A successful run appends exactly one record per question, in
order; each record carries the question's id, the model id, a fresh uuid and
timestamp, and `num_choices` choice entries indexed by their choice number,
each holding one completion per turn; when the uuid oracle is injective
(fresh uuids), the records' answer ids are pairwise distinct. -/
theorem answer_records_spec (env : Env) (p : String) (questions : List Question)
    (M : Int) (nc : Nat) (stOut : RunSt) (answers : List Answer)
    (h : get_model_answers env p questions M nc = Except.ok (stOut, answers)) :
    answers.length = questions.length ∧
    (∀ k (hk : k < answers.length) (hq : k < questions.length),
      (answers.get ⟨k, hk⟩).question_id = (questions.get ⟨k, hq⟩).question_id ∧
      (answers.get ⟨k, hk⟩).model_id = p ∧
      (answers.get ⟨k, hk⟩).answer_id = env.uuid k ∧
      (answers.get ⟨k, hk⟩).tstamp = env.time k ∧
      (answers.get ⟨k, hk⟩).choices.length = nc ∧
      ∀ j (hj : j < (answers.get ⟨k, hk⟩).choices.length),
        ((answers.get ⟨k, hk⟩).choices.get ⟨j, hj⟩).index = j ∧
        ((answers.get ⟨k, hk⟩).choices.get ⟨j, hj⟩).turns.length =
          (questions.get ⟨k, hq⟩).turns.length) ∧
    (Function.Injective env.uuid →
      ∀ k1 k2 (h1 : k1 < answers.length) (h2 : k2 < answers.length),
        (answers.get ⟨k1, h1⟩).answer_id = (answers.get ⟨k2, h2⟩).answer_id →
        k1 = k2) := by
  rw [get_model_answers] at h
  obtain ⟨hlen, -, -, hrec, -⟩ := runQuestions_spec env p M nc questions _ _ _ h
  refine ⟨hlen, ?_, ?_⟩
  · intro k hk hq
    have := hrec k hk hq
    simpa using this
  · intro hinj k1 k2 h1 h2 heq
    have hq1 : k1 < questions.length := by omega
    have hq2 : k2 < questions.length := by omega
    have e1 := (hrec k1 h1 hq1).2.2.1
    have e2 := (hrec k2 h2 hq2).2.2.1
    simp only at e1 e2
    rw [e1, e2] at heq
    have := hinj heq
    simpa using this

/-- Witness for `answer_records_spec`: the concrete `envFail` run appends
exactly one record for its one question. -/
theorem answer_records_spec_witness :
    ([ansF] : List Answer).length = ([qF] : List Question).length :=
  (answer_records_spec envFail "model" [qF] 1024 1 stF [ansF] envFail_run_eq).1

/-- **C7.** The choice sampled at index `i` is governed by seed `i`: a
successful run's `torch.manual_seed` trace is exactly
`range num_choices` per question (in order), and the choice loop's outputs
are independent of the RNG state and `max_new_token` value left behind by
earlier work — so two runs over the same model oracle, model id, questions
and `num_choices` set the same seeds and produce the same choice outputs. -/
theorem choice_seed_determinism :
    (∀ (env : Env) (p : String) (questions : List Question) (M : Int) (nc : Nat)
      (stOut : RunSt) (answers : List Answer),
      get_model_answers env p questions M nc = Except.ok (stOut, answers) →
      stOut.seeds = (questions.map (fun _ => List.range nc)).flatten) ∧
    (∀ (env : Env) (p : String) (M : Int) (t : ℚ) (tq : List String)
      (idxs : List Nat) (st : RunSt) (r1 r2 : Nat) (m1 m2 : Int),
      (runChoices env p M t tq idxs { st with rng := r1, mnt := m1 }).map Prod.snd =
      (runChoices env p M t tq idxs { st with rng := r2, mnt := m2 }).map Prod.snd) := by
  constructor
  · intro env p questions M nc stOut answers h
    rw [get_model_answers] at h
    obtain ⟨-, -, hseeds, -, -⟩ := runQuestions_spec env p M nc questions _ _ _ h
    simpa using hseeds
  · intro env p M t tq idxs st r1 r2 m1 m2
    have hA : AgreeCSC { st with rng := r1, mnt := m1 } { st with rng := r2, mnt := m2 } :=
      ⟨rfl, rfl, rfl⟩
    have hc := runChoices_congr env p M t tq idxs _ _ hA
    cases h1 : runChoices env p M t tq idxs { st with rng := r1, mnt := m1 } with
    | error e =>
        cases h2 : runChoices env p M t tq idxs { st with rng := r2, mnt := m2 } with
        | error e2 =>
            rw [h1, h2] at hc
            subst hc
            rfl
        | ok r2v =>
            rw [h1, h2] at hc
            rcases r2v with ⟨s2, cs2⟩
            exact absurd hc (by intro hF; exact hF)
    | ok r1v =>
        rcases r1v with ⟨s1, cs1⟩
        cases h2 : runChoices env p M t tq idxs { st with rng := r2, mnt := m2 } with
        | error e2 =>
            rw [h1, h2] at hc
            exact absurd hc (by intro hF; exact hF)
        | ok r2v =>
            rcases r2v with ⟨s2, cs2⟩
            rw [h1, h2] at hc
            obtain ⟨hcs, -⟩ := hc
            rw [Except.map, Except.map]
            rw [hcs]

/-- Witness for `choice_seed_determinism`: the concrete `envFail` run's seed
trace is `range 1` for its one question, and a concrete choice loop ignores
the incoming RNG and `max_new_token` values. -/
theorem choice_seed_determinism_witness :
    stF.seeds = (([qF] : List Question).map (fun _ => List.range 1)).flatten ∧
    (runChoices envFail "model" 1024 (7 / 10) ["Q"] [0, 1]
        { (⟨5, 7, 0, [], []⟩ : RunSt) with rng := 11, mnt := 13 }).map Prod.snd =
    (runChoices envFail "model" 1024 (7 / 10) ["Q"] [0, 1]
        { (⟨5, 7, 0, [], []⟩ : RunSt) with rng := 17, mnt := 19 }).map Prod.snd :=
  ⟨choice_seed_determinism.1 envFail "model" [qF] 1024 1 stF [ansF] envFail_run_eq,
   choice_seed_determinism.2 envFail "model" 1024 (7 / 10) ["Q"] [0, 1]
     ⟨5, 7, 0, [], []⟩ 11 17 13 19⟩

/-- **C9.** Every generate call of a successful run uses
`max_new_tokens = MAX_NEW_TOKEN` when `num_input_tokens + MAX_NEW_TOKEN ≤
2048` and `2048 - num_input_tokens` otherwise — a pure function of the
turn's own prompt length and the untouched `MAX_NEW_TOKEN`, so one turn's
reduction never shrinks a later turn's budget; consequently the sum of input
tokens and the generation budget never exceeds 2048, and a prompt longer
than 2048 tokens gets a non-positive budget. -/
theorem max_new_tokens_clipped (env : Env) (p : String) (questions : List Question)
    (M : Int) (nc : Nat) (stOut : RunSt) (answers : List Answer)
    (h : get_model_answers env p questions M nc = Except.ok (stOut, answers)) :
    ∀ c ∈ stOut.calls,
      c.max_new_tokens =
        (if (c.num_input_tokens : Int) + M > 2048 then
          (2048 : Int) - c.num_input_tokens else M) ∧
      (c.num_input_tokens : Int) + c.max_new_tokens ≤ 2048 ∧
      (2048 < (c.num_input_tokens : Int) → c.max_new_tokens ≤ 0) := by
  rw [get_model_answers] at h
  obtain ⟨-, -, -, -, gcs, hcalls, hP⟩ := runQuestions_spec env p M nc questions _ _ _ h
  intro c hc
  rw [hcalls] at hc
  simp only [List.nil_append] at hc
  have hval := hP c hc
  refine ⟨hval, ?_, ?_⟩
  · by_cases hif : (c.num_input_tokens : Int) + M > 2048
    · rw [if_pos hif] at hval
      omega
    · rw [if_neg hif] at hval
      omega
  · intro hbig
    by_cases hif : (c.num_input_tokens : Int) + M > 2048
    · rw [if_pos hif] at hval
      omega
    · rw [if_neg hif] at hval
      omega

/-- Witness for `max_new_tokens_clipped`: the first generate call of the
concrete `envFail` run (3 input tokens, `MAX_NEW_TOKEN = 1024`). -/
theorem max_new_tokens_clipped_witness :
    cF.max_new_tokens =
      (if (cF.num_input_tokens : Int) + 1024 > 2048 then
        (2048 : Int) - cF.num_input_tokens else 1024) ∧
    (cF.num_input_tokens : Int) + cF.max_new_tokens ≤ 2048 ∧
    (2048 < (cF.num_input_tokens : Int) → cF.max_new_tokens ≤ 0) :=
  max_new_tokens_clipped envFail "model" [qF] 1024 1 stF [ansF] envFail_run_eq
    cF (List.mem_cons_self cF [cF])

end GenModelAnswer
